import Mathlib

/-!
# Eclipse-geometry radiative transfer (`eclipse.c`) and the message package (`messagep.c`)

A shallow embedding of `eclipsetau`, `eclipse_intens`, `emergent_intens`, `flux` and
`vmperror_fcn`.

Conventions of the embedding.

* `PREC_RES` / `double` values live in an arbitrary field `α`: arithmetic is exact.  The same
  definitions run over `ℚ` (concrete evaluation) and over `ℝ` (with the real `exp`, `cos`, `sin`).
* A C array reached through a pointer is a total map `Int → α` from element index to value;
  `p + k` is `shift p k`, a store `p[i] = v` is `Function.update p i v`.  Accesses through a
  caller's pointer are not checked against the extent of the caller's allocation.  Automatic
  arrays start from the indeterminate contents `junk`, `calloc`ed arrays from zeros.
* The variable-length automatic array `s` of `eclipsetau` carries the length it was declared
  with: a store outside that extent has no defined behaviour in C and ends the run in a
  `Fault` instead of producing a value.
* `long` / `int` indices and counts are unbounded integers.
* Functions of the `pu` utility library and of `libm`, and the physical constants of
  `transit.h`, are not part of the translated sources; the translated functions take them as
  arguments (`PU`, `Libm`, `Consts`).
-/

set_option linter.unusedVariables false

namespace Transit

/-- C array addressed through a pointer: total map from element index to value. -/
abbrev Arr (α : Type) := Int → α

/-- Pointer arithmetic `p + k`: the array seen from element `k` of `p`. -/
def shift {α : Type} (p : Arr α) (k : Int) : Arr α := fun j => p (k + j)

/-- Sampling record `prop_samp`: number of elements, values, units factor. -/
structure prop_samp (α : Type) where
  n : Int
  v : Arr α
  fct : α

/-- Optical depth record `struct optdepth`: `t[w]` is the depth array of wavenumber `w`,
`last[w]` the index where it reached `toomuch`. -/
structure optdepth (α : Type) where
  t : Int → Arr α
  last : Int → Int
  toomuch : α

/-- The static `struct outputray` that the pointer `tr->ds.out` addresses: none of the two
below, the `st_out` of `emergent_intens`, or the `st_out` of `flux`. -/
inductive OutRef where
  | other
  | emergent_intens
  | flux
  deriving DecidableEq

/-- The fields of `struct transit` read or written by `eclipse.c`; `intens` is the intensity
grid `tr->ds.intens->a`, `tau` is `tr->ds.tau`, `atm_t` is `tr->atm.t`. -/
structure transit (α : Type) where
  rads : prop_samp α
  wns : prop_samp α
  atm_t : Arr α
  angles : Arr α
  angleIndex : Int
  ann : Int
  intens : Int → Arr α
  tau : optdepth α
  ds_out : OutRef
  pi : Nat

/-- Numerical helpers of the `pu` library called by `eclipse.c`, passed as arguments.
`makeh x h n` gives the new contents of `h`; `geth h hsum hratio hfactor n` the new contents of
`hsum`, `hratio`, `hfactor`; `simps y h hsum hratio hfactor n` the integral. -/
structure PU (α : Type) where
  binsearchapprox : Arr α → α → Int → Int → Int
  interp_parab : Arr α → Arr α → α → α
  makeh : Arr α → Arr α → Int → Arr α
  geth : Arr α → Arr α → Arr α → Arr α → Int → Arr α × Arr α × Arr α
  simps : Arr α → Arr α → Arr α → Arr α → Arr α → Int → α

/-- Elementary functions of `libm` used by `eclipse.c`. -/
structure Libm (α : Type) where
  exp : α → α
  cos : α → α
  sin : α → α

/-- Constants of `transit.h` used by `eclipse.c`: Planck constant, speed of light, Boltzmann
constant, pi, and the degree-to-radian factor. -/
structure Consts (α : Type) where
  H : α
  LS : α
  KB : α
  PI : α
  DEGREES : α

section Integrate

variable {α : Type} [Field α]

/-- The integration tail shared by `eclipsetau` and `eclipse_intens`:
`h = calloc(n-1)`, `hsum = hratio = hfactor = calloc(n/2)`, then
`makeh(x, h, n); geth(h, hsum, hratio, hfactor, n); simps(y, h, hsum, hratio, hfactor, n)`. -/
def integrate (pu : PU α) (x y : Arr α) (n : Int) : α :=
  let z : Arr α := fun _ => 0
  let h := pu.makeh x z n
  let g := pu.geth h z z z n
  pu.simps y h g.1 g.2.1 g.2.2 n

end Integrate

section Eclipsetau

variable {α : Type} [Field α]

/-- The way a run of `eclipsetau` leaves the behaviour C defines: a store `a[idx] = v` into an
automatic array declared with `len` elements, `idx` not being one of `0 .. len-1`. -/
inductive Fault where
  | storeOutside (idx len : Int)
  deriving DecidableEq

/-- State of `eclipsetau` once the three interpolation points have been provided
(lines 98-130): the caller's radius and extinction arrays after the stores, the arrays the
local pointers `rad` and `ex` address, the point count `nrad`, and the length `slen` with which
the automatic array `s` was declared. -/
structure TauPrep (α : Type) where
  rad : Arr α
  ex : Arr α
  radP : Arr α
  exP : Arr α
  nrad : Int
  slen : Int

/-- Lines 98-130 of `eclipsetau`, for the layer index `rs` found by the search. -/
def eclipsetau_prep (pu : PU α) (junk : Arr α) (tr : transit α) (rs : Int) (ex : Arr α) :
    TauPrep α :=
  let rad0 := tr.rads.v
  let nrad := tr.rads.n - rs
  let tmpex := ex rs
  let tmprad := rad0 rs
  let e0 :=
    if nrad = 2 then pu.interp_parab (shift rad0 (rs - 1)) (shift ex (rs - 1)) (rad0 rs)
    else pu.interp_parab (shift rad0 rs) (shift ex rs) (rad0 rs)
  let ex1 := Function.update ex rs e0
  if nrad = 2 then
    let x3a := Function.update junk 0 (ex1 rs)
    let x3b := Function.update x3a 2 (ex1 (rs + 1))
    let x3 := Function.update x3b 1 ((ex1 (rs + 1) + ex1 rs) / 2)
    let r3a := Function.update junk 0 (rad0 rs)
    let r3b := Function.update r3a 2 (rad0 (rs + 1))
    let r3 := Function.update r3b 1 ((rad0 rs + rad0 (rs + 1)) / 2)
    { rad := Function.update rad0 rs tmprad
      ex := Function.update ex1 rs tmpex
      radP := r3
      exP := x3
      nrad := nrad + 1
      slen := nrad }
  else
    { rad := rad0
      ex := ex1
      radP := shift rad0 rs
      exP := shift ex1 rs
      nrad := nrad
      slen := nrad }

/-- A store `a[i] = v` into an automatic array declared with `len` elements: the new contents
of the array, or the fault when `i` is not one of `0 .. len-1`. -/
def store_at (len : Int) (a : Arr α) (i : Int) (v : α) : Except Fault (Arr α) :=
  if 0 ≤ i ∧ i < len then Except.ok (Function.update a i v)
  else Except.error (Fault.storeOutside i len)

/-- The loop `for(i=1; i < nrad; i++) s[i] = s[i-1] + (rad[i] - rad[i-1])` after `k`
iterations, `s` being declared with `slen` elements. -/
def path_loop (slen : Int) (rad : Arr α) : Nat → Arr α → Except Fault (Arr α)
  | 0, s => Except.ok s
  | k + 1, s =>
    match path_loop slen rad k s with
    | Except.error f => Except.error f
    | Except.ok s1 =>
      let i : Int := (k : Int) + 1
      store_at slen s1 i (s1 (i - 1) + (rad i - rad (i - 1)))

/-- Lines 133-136: the distance along the path, `s[0] = 0` followed by the loop, for the array
`s` declared with `slen` elements (line 109) and the point count `nrad` the loop runs to. -/
def eclipsetau_path (junk : Arr α) (rad : Arr α) (slen nrad : Int) : Except Fault (Arr α) :=
  match store_at slen junk 0 0 with
  | Except.error f => Except.error f
  | Except.ok s0 => path_loop slen rad (nrad - 1).toNat s0

/-- What `eclipsetau` leaves behind: the returned value and the contents of the caller's
radius (`tr->rads.v`) and extinction arrays. -/
structure TauResult (α : Type) where
  res : α
  rad : Arr α
  ex : Arr α

/-- The function `eclipsetau(tr, height, ex)`: what it leaves behind when it returns, or the
fault that ends the run. -/
def eclipsetau (pu : PU α) (junk : Arr α) (tr : transit α) (height : α) (ex : Arr α) :
    Except Fault (TauResult α) :=
  let rs := pu.binsearchapprox tr.rads.v height 0 (tr.rads.n - 1)
  if rs = tr.rads.n - 1 then
    Except.ok { res := 0, rad := tr.rads.v, ex := ex }
  else
    let p := eclipsetau_prep pu junk tr rs ex
    match eclipsetau_path junk p.radP p.slen p.nrad with
    | Except.error f => Except.error f
    | Except.ok s => Except.ok { res := integrate pu s p.exP p.nrad, rad := p.rad, ex := p.ex }

end Eclipsetau

section EclipseIntens

variable {α : Type} [Field α]

/-- Fatal condition raised through `transiterror(TERR_CRITICAL, ...)`.
Modelled from the spec: `transiterror` is not among the translated sources; a critical error
is fatal, it ends the run and no value is returned.  `given` is the count printed in
"Less than 3 items (%i given) for radial integration." -/
inductive Fatal where
  | lessThan3 (given : Int)
  deriving DecidableEq

/-- The automatic arrays `B`, `tauInteg` and `tauIV` of `eclipse_intens`. -/
structure IntensArrays (α : Type) where
  B : Arr α
  tauInteg : Arr α
  tauIV : Arr α

/-- The loop `for(i=0; i <= last; i++)` of `eclipse_intens` (lines 209-214) after `k`
iterations. -/
def intens_layers (c : Consts α) (lm : Libm α) (tr : transit α) (tau : Arr α) (w : α)
    (rnn : Int) (angle : α) : Nat → IntensArrays α → IntensArrays α
  | 0, a => a
  | k + 1, a =>
    let a1 := intens_layers c lm tr tau w rnn angle k a
    let i : Int := (k : Int)
    let wfct := tr.wns.fct
    let tauIV := Function.update a1.tauIV i (tau i)
    let B := Function.update a1.B i
      ((2 * c.H * w * w * w * wfct * wfct * wfct * c.LS * c.LS)
        / (lm.exp (c.H * w * wfct * c.LS / (c.KB * tr.atm_t (rnn - 1 - i))) - 1))
    let tauInteg := Function.update a1.tauInteg i (B i * lm.exp (-tau i / lm.cos angle))
    { B := B, tauInteg := tauInteg, tauIV := tauIV }

/-- The loop `for(; i<rnn; i++)` of `eclipse_intens` (lines 218-223) after `k` iterations,
entered with `i = i0`.  The source adds `1` to the previous abscissa; `step` stands for that
increment. -/
def intens_pad (step : α) (i0 : Int) : Nat → IntensArrays α → IntensArrays α
  | 0, a => a
  | k + 1, a =>
    let a1 := intens_pad step i0 k a
    let i : Int := i0 + (k : Int)
    let tauInteg := Function.update a1.tauInteg i 0
    let tauIV := Function.update a1.tauIV i (a1.tauIV (i - 1) + step)
    { B := a1.B, tauInteg := tauInteg, tauIV := tauIV }

/-- The arrays of `eclipse_intens` after both loops (lines 209-223).  The first loop runs
`last + 1` times (not at all when `last < 0`) and leaves `i = max 0 (last + 1)`; the second
runs from there up to `rnn - 1`. -/
def intens_arrays (step : α) (c : Consts α) (lm : Libm α) (junk : Arr α) (tr : transit α)
    (tau : Arr α) (w : α) (last : Int) (rnn : Int) : IntensArrays α :=
  let angle := tr.angles tr.angleIndex * c.DEGREES
  let k1 := (last + 1).toNat
  let a1 := intens_layers c lm tr tau w rnn angle k1
    { B := junk, tauInteg := junk, tauIV := junk }
  intens_pad step (k1 : Int) (rnn - (k1 : Int)).toNat a1

/-- The point count handed to the integrator (lines 227-234): `last += 2`, clamped to `rnn`. -/
def intens_count (last : Int) (rnn : Int) : Int :=
  let last2 := last + 2
  if last2 > rnn then rnn else last2

/-- The body of `eclipse_intens` with the abscissa increment of the padding loop as the
argument `step`. -/
def eclipse_intens_with (step : α) (pu : PU α) (c : Consts α) (lm : Libm α) (junk : Arr α)
    (tr : transit α) (tau : Arr α) (w : α) (last : Int) (toomuch : α) (rad : prop_samp α) :
    Except Fatal α :=
  let angle := tr.angles tr.angleIndex * c.DEGREES
  let rnn := rad.n
  let a := intens_arrays step c lm junk tr tau w last rnn
  let last1 := intens_count last rnn
  if last1 < 3 then
    Except.error (Fatal.lessThan3 last1)
  else
    Except.ok (integrate pu a.tauIV a.tauInteg last1 / lm.cos angle)

/-- The function `eclipse_intens(tr, tau, w, last, toomuch, rad)`: the padding loop adds `1`. -/
def eclipse_intens (pu : PU α) (c : Consts α) (lm : Libm α) (junk : Arr α)
    (tr : transit α) (tau : Arr α) (w : α) (last : Int) (toomuch : α) (rad : prop_samp α) :
    Except Fatal α :=
  eclipse_intens_with 1 pu c lm junk tr tau w last toomuch rad

/-- Planck function in the words of the specification:
`B(w,T) = 2*H*(w*wfct)^3*LS^2 / (exp(H*w*wfct*LS/(KB*T)) - 1)`. -/
def planck_spec (c : Consts α) (lm : Libm α) (wfct w T : α) : α :=
  2 * c.H * (w * wfct) ^ 3 * c.LS ^ 2 / (lm.exp (c.H * w * wfct * c.LS / (c.KB * T)) - 1)

end EclipseIntens

section Driver

variable {α : Type} [Field α]

/-- The record `ray_solution`: name, source file, equispaced-sampling request, optical-depth
function and intensity function (the one called as `sol->spectrum`). -/
structure ray_solution (α : Type) where
  name : String
  file : String
  equispaced : Int
  optical_depth : transit α → α → Arr α → Except Fault (TauResult α)
  spectrum : transit α → Arr α → α → Int → α → prop_samp α → Except Fatal α

/-- The constant `eclipsepath` at the end of `eclipse.c`. -/
def eclipsepath (pu : PU α) (c : Consts α) (lm : Libm α) (junk : Arr α) : ray_solution α :=
  { name := "eclipse"
    file := "eclipse.c"
    equispaced := 0
    optical_depth := eclipsetau pu junk
    spectrum := eclipse_intens pu c lm junk }

/-- State threaded through the wavenumber loop of `emergent_intens`: the transit structure and
the cells `(row, column)` of the intensity grid stored so far, oldest first. -/
structure EmergentState (α : Type) where
  tr : transit α
  writes : List (Int × Int)

/-- The loop `for(w=0; w<wnn; w++) out[w] = sol->spectrum(tr, tau->t[w], wn->v[w],
tau->last[w], tau->toomuch, rad)` after `k` iterations, `out` being row `angleIndex` of the
grid.  A fatal exit inside `spectrum` ends the loop.  The progress messages are not
modelled. -/
def emergent_loop (sol : ray_solution α) (angleIndex : Int) :
    Nat → EmergentState α → Except Fatal (EmergentState α)
  | 0, st => Except.ok st
  | k + 1, st =>
    match emergent_loop sol angleIndex k st with
    | Except.error e => Except.error e
    | Except.ok st1 =>
      let w : Int := (k : Int)
      match sol.spectrum st1.tr (st1.tr.tau.t w) (st1.tr.wns.v w) (st1.tr.tau.last w)
          st1.tr.tau.toomuch st1.tr.rads with
      | Except.error e => Except.error e
      | Except.ok v =>
        Except.ok
          { tr := { st1.tr with
                    intens := Function.update st1.tr.intens angleIndex
                      (Function.update (st1.tr.intens angleIndex) w v) }
            writes := st1.writes ++ [(angleIndex, w)] }

/-- What `emergent_intens` leaves behind: return value, transit structure, the grid cells it
stored (in order), and whether `printintens` was called. -/
structure EmergentResult (α : Type) where
  ret : Int
  tr : transit α
  writes : List (Int × Int)
  printed : Bool

/-- The function `emergent_intens(tr)`; `sol` is `tr->sol`, `TRPI_MODULATION` the progress
flag of `transit.h`. -/
def emergent_intens (TRPI_MODULATION : Nat) (sol : ray_solution α) (tr : transit α) :
    Except Fatal (EmergentResult α) :=
  let tr0 := { tr with ds_out := OutRef.emergent_intens }
  let wnn := tr0.wns.n
  let angleIndex := tr0.angleIndex
  match emergent_loop sol angleIndex wnn.toNat { tr := tr0, writes := [] } with
  | Except.error e => Except.error e
  | Except.ok st =>
    let tr1 := { st.tr with pi := st.tr.pi ||| TRPI_MODULATION }
    Except.ok
      { ret := 0
        tr := tr1
        writes := st.writes
        printed := decide (tr1.angleIndex = tr1.ann - 1) }

/-- The loop `for(i = 1; i < an; i++) area_grid[i] = (angles[i-1] + angles[i]) * DEGREES / 2.0`
after `k` iterations. -/
def area_loop (c : Consts α) (angles : Arr α) : Nat → Arr α → Arr α
  | 0, g => g
  | k + 1, g =>
    let g1 := area_loop c angles k g
    let i : Int := (k : Int) + 1
    Function.update g1 i ((angles (i - 1) + angles i) * c.DEGREES / 2)

/-- Lines 359-366 of `flux`: the `calloc`ed area grid with its first and last value set, then
the loop over the inner boundaries. -/
def flux_area_grid (c : Consts α) (angles : Arr α) (an : Int) : Arr α :=
  let g0 : Arr α := fun _ => 0
  let g1 := Function.update g0 0 (0 * c.DEGREES)
  let g2 := Function.update g1 an (90 * c.DEGREES)
  area_loop c angles (an - 1).toNat g2

/-- The loop `for(w=0; w < wnn; w++) out[w] += PI * intens_grid[i][w] * area` after `k`
iterations; `row` is `intens_grid[i]`. -/
def flux_inner (c : Consts α) (row : Arr α) (area : α) : Nat → Arr α → Arr α
  | 0, out => out
  | k + 1, out =>
    let o1 := flux_inner c row area k out
    let w : Int := (k : Int)
    Function.update o1 w (o1 w + c.PI * row w * area)

/-- The loop over the angles of `flux` (lines 372-376) after `k` iterations;
`pow(x, 2.0)` is the square `x ^ 2`. -/
def flux_outer (c : Consts α) (lm : Libm α) (grid : Int → Arr α) (g : Arr α) (wnn : Int) :
    Nat → Arr α → Arr α
  | 0, out => out
  | k + 1, out =>
    let o1 := flux_outer c lm grid g wnn k out
    let i : Int := (k : Int)
    let area := lm.sin (g (i + 1)) ^ 2 - lm.sin (g i) ^ 2
    flux_inner c (grid i) area wnn.toNat o1

/-- What `flux` leaves behind: return value, transit structure, the flux array `st_out.o`,
and whether `printflux` was called. -/
structure FluxResult (α : Type) where
  ret : Int
  tr : transit α
  out : Arr α
  printed : Bool

/-- The function `flux(tr)`. -/
def flux (c : Consts α) (lm : Libm α) (tr : transit α) : FluxResult α :=
  let tr0 := { tr with ds_out := OutRef.flux }
  let an := tr0.ann
  let wnn := tr0.wns.n
  let g := flux_area_grid c tr0.angles an
  let out0 : Arr α := fun _ => 0
  { ret := 0
    tr := tr0
    out := flux_outer c lm tr0.intens g wnn an.toNat out0
    printed := true }

end Driver

section Messagep

/-- Flag constants of `messagep.h`, which is not among the translated sources. -/
structure MsgpFlags where
  NOFLAGBITS : Nat
  SYSTEM : Nat
  USER : Nat
  WARNING : Nat
  ALLOWCONT : Nat
  NOPREAMBLE : Nat
  DBG : Nat
  NODBG : Nat

/-- How a call of `vmperror_fcn` ends: it returns `ret` to its caller, leaving the counter
`msgp_allown` at `allown`, or it ends the program through `exit(EXIT_FAILURE)`. -/
inductive Outcome where
  | returned (ret : Int) (allown : Int)
  | exited
  deriving DecidableEq

/-- The table `error[7][22]` of `vmperror_fcn`. -/
def errorTable : List String :=
  ["", ":: SYSTEM error: ", ":: USER error: ", ":: Warning: ",
   ":: Not implemented", ":: Not implemented", ":: Not implemented"]

/-- C logical negation `!x` of an `int`. -/
def lnot (x : Nat) : Nat := if x = 0 then 1 else 0

/-- The flag word of `vmperror_fcn` after lines 128-132:
`if ((flags & NOFLAGBITS) == SYSTEM && !(flags & NODBG)) flags |= DBG;`
`if (flags & NODBG) flags &= !DBG;`. -/
def vmperror_flags (K : MsgpFlags) (flags : Nat) : Nat :=
  let f1 := if flags &&& K.NOFLAGBITS = K.SYSTEM ∧ flags &&& K.NODBG = 0
    then flags ||| K.DBG else flags
  if f1 &&& K.NODBG ≠ 0 then f1 &&& lnot K.DBG else f1

/-- The text assembled in `errormessage` (lines 156-167) from the flag word `f` left by lines
128-132. -/
def vmperror_message (K : MsgpFlags) (prgname : String) (f : Nat) (file : String)
    (line : Int) (str : String) : String :=
  let m0 := "\n" ++ prgname
  let m1 := if f &&& K.DBG ≠ 0 then m0 ++ " (" ++ file ++ "|" ++ toString line ++ ")" else m0
  let m2 := if f &&& K.NOPREAMBLE = 0 then m1 ++ errorTable.getD (f &&& K.NOFLAGBITS) "" else m1
  m2 ++ str

/-- The function `vmperror_fcn(flags, file, line, str, ap)`.  `msgp_nowarn`, `msgp_allown`
and `prgname` are the static variables of `messagep.c` (`prgname = none` is the null pointer);
`vsnprintf` gives the number of characters the formatted message takes. -/
def vmperror_fcn (K : MsgpFlags) (vsnprintf : String → Int) (msgp_nowarn : Int)
    (msgp_allown : Int) (prgname : Option String) (flags : Nat) (file : String) (line : Int)
    (str : String) : Outcome :=
  let f := vmperror_flags K flags
  if msgp_nowarn ≠ 0 ∧ f &&& K.NOFLAGBITS = K.WARNING then
    Outcome.returned 0 msgp_allown
  else
    match prgname with
    | none => Outcome.exited
    | some name =>
      let xtr := vsnprintf (vmperror_message K name f file line str) + 1
      if f &&& K.ALLOWCONT ≠ 0 ∨ f &&& K.NOFLAGBITS = K.WARNING then
        Outcome.returned xtr (msgp_allown + 1)
      else
        Outcome.exited

end Messagep

section SpecPU

variable {α : Type} [LinearOrderedField α]

/-- Modelled from the spec: the bisection inside `binsearchapprox` (pu library, not among the
translated sources), "binary search over the (assumed sorted) radius grid".  It keeps
`arr[lo] <= val < arr[hi]` and halves the bracket until it holds one interval. -/
def bisect (arr : Arr α) (val : α) : Nat → Int → Int → Int
  | 0, lo, _ => lo
  | fuel + 1, lo, hi =>
    if hi - lo ≤ 1 then lo
    else
      let mid := (lo + hi) / 2
      if arr mid ≤ val then bisect arr val fuel mid hi else bisect arr val fuel lo mid

/-- Modelled from the spec: `binsearchapprox(arr, val, lo, hi)` (pu library, not among the
translated sources) locates the index `rs` with `arr[rs] <= val < arr[rs+1]`; a value at or
above the last element gives the last index `hi`. -/
def spec_binsearchapprox (arr : Arr α) (val : α) (lo hi : Int) : Int :=
  if arr hi ≤ val then hi else bisect arr val (hi - lo).toNat lo hi

/-- Modelled from the spec: `interp_parab(x, y, xr)` (pu library, not among the translated
sources), the "three-point parabolic interpolation": the parabola through `(x[0], y[0])`,
`(x[1], y[1])`, `(x[2], y[2])` evaluated at `xr`, in exact arithmetic.  At one of its own nodes
this parabola takes the sample itself; the specification also describes the interpolated value
as a "smoothed estimate" that "alters the exact endpoint", which `deviatingPU` stands for.
No statement about the caller's extinction array rests on the value chosen here. -/
def spec_interp_parab (x y : Arr α) (xr : α) : α :=
  y 0 * ((xr - x 1) * (xr - x 2)) / ((x 0 - x 1) * (x 0 - x 2))
    + y 1 * ((xr - x 0) * (xr - x 2)) / ((x 1 - x 0) * (x 1 - x 2))
    + y 2 * ((xr - x 0) * (xr - x 1)) / ((x 2 - x 0) * (x 2 - x 1))

/-- Modelled from the spec: `makeh(s, h, m)` (pu library, not among the translated sources)
computes the "pairwise interval lengths `h[i] = s[i+1]-s[i]`", `0 <= i < m-1`. -/
def spec_makeh (s h : Arr α) (m : Int) : Arr α :=
  fun i => if 0 ≤ i ∧ i < m - 1 then s (i + 1) - s i else h i

/-- Modelled from the spec: `geth(h, hsum, hratio, hfactor, m)` (pu library, not among the
translated sources) fills, "for every consecutive pair of intervals" `(2i, 2i+1)`,
`hsum[i] = h[2i]+h[2i+1]`, `hratio[i] = h[2i+1]/h[2i]` and `hfactor[i]`, the middle coefficient
`(h[2i]+h[2i+1])^2 / (h[2i]*h[2i+1])` of "classical Simpson's-rule-for-unequal-intervals". -/
def spec_geth (h hsum hratio hfactor : Arr α) (m : Int) : Arr α × Arr α × Arr α :=
  let pair := fun i : Int => 0 ≤ i ∧ 2 * i + 1 < m - 1
  (fun i => if pair i then h (2 * i) + h (2 * i + 1) else hsum i,
   fun i => if pair i then h (2 * i + 1) / h (2 * i) else hratio i,
   fun i => if pair i then (h (2 * i) + h (2 * i + 1)) ^ 2 / (h (2 * i) * h (2 * i + 1))
            else hfactor i)

/-- Modelled from the spec: `simps(y, h, hsum, hratio, hfactor, m)` (pu library, not among the
translated sources), "composite Simpson weighting" over the consecutive pairs of intervals:
each pair `i` adds `hsum[i]/6 * (y[2i]*(2 - hratio[i]) + y[2i+1]*hfactor[i]
+ y[2i+2]*(2 - 1/hratio[i]))`.  The spec asks for an odd `m`; for an even `m` it describes
no further term, and only the full pairs are summed here. -/
def spec_simps (y h hsum hratio hfactor : Arr α) (m : Int) : α :=
  Finset.sum (Finset.range ((m - 1) / 2).toNat) fun k =>
    let i : Int := (k : Int)
    hsum i / 6 * (y (2 * i) * (2 - hratio i) + y (2 * i + 1) * hfactor i
      + y (2 * i + 2) * (2 - 1 / hratio i))

/-- Modelled from the spec: the helpers of the pu library as the specification describes
them. -/
def specPU : PU α :=
  { binsearchapprox := spec_binsearchapprox
    interp_parab := spec_interp_parab
    makeh := spec_makeh
    geth := spec_geth
    simps := spec_simps }

end SpecPU

section Examples

variable {α : Type} [Field α]

/-- Array holding the elements of a list from index `0` on, zero elsewhere. -/
def ofList (l : List α) : Arr α := fun i => if 0 ≤ i then l.getD i.toNat 0 else 0

/-- Three-element array `[a, b, c]` laid over the contents `junk`. -/
def three (junk : Arr α) (a b c : α) : Arr α :=
  Function.update (Function.update (Function.update junk 0 a) 1 b) 2 c

/-- The two-point case in the words of the specification: a midpoint is inserted at the mean
radius and mean extinction, and the Simpson Integrator runs on the three-point grid
`[r0, (r0+r1)/2, r1]`, `[e0, (e0+e1)/2, e1]`. -/
def midpoint_spec (pu : PU α) (junk : Arr α) (r0 r1 e0 e1 : α) : α :=
  integrate pu (three junk r0 ((r0 + r1) / 2) r1) (three junk e0 ((e0 + e1) / 2) e1) 3

/-- The three-layer atmosphere of the end-to-end scenario: radii `[1.0, 1.5, 2.0]`, two
wavenumbers, two incidence angles. -/
def atm3 : transit α :=
  { rads := { n := 3, v := ofList [1, 3 / 2, 2], fct := 1 }
    wns := { n := 2, v := ofList [1000, 2000], fct := 1 }
    atm_t := ofList [1500, 1200, 1000]
    angles := ofList [0, 60]
    angleIndex := 0
    ann := 2
    intens := fun _ _ => 0
    tau := { t := fun _ => ofList [0, 1, 2], last := fun _ => 1, toomuch := 10 }
    ds_out := OutRef.other
    pi := 0 }

/-- Physical constants in CGS units (Planck constant `6.6260755e-27`, speed of light
`2.99792458e10`, Boltzmann constant `1.380658e-16`) around a given value of pi, with
`DEGREES = pi / 180`. -/
def cgs (pi : α) : Consts α :=
  { H := 66260755 / 10 ^ 34
    LS := 299792458 * 10 ^ 2
    KB := 1380658 / 10 ^ 22
    PI := pi
    DEGREES := pi / 180 }

/-- The extinction profile `[0.1, 0.05, 0.0]` of the end-to-end scenario. -/
def ex3 : Arr α := ofList [1 / 10, 1 / 20, 0]

/-- The three-layer atmosphere with every angle row of the intensity grid holding the same
intensities `[5, 7]`. -/
def atm3_flat : transit α :=
  { (atm3 : transit α) with intens := fun _ => ofList [5, 7] }

end Examples

section SpecSide

variable {α : Type} [Field α]

/-- The area grid in the words of the specification: `g[0] = 0`, `g[an] = 90*DEGREES`, and
`g[i] = (angles[i-1]+angles[i])*DEGREES/2` for the boundaries in between. -/
def area_grid_spec (c : Consts α) (angles : Arr α) (an : Int) : Arr α :=
  fun i => if i = 0 then 0 else if i = an then 90 * c.DEGREES
    else (angles (i - 1) + angles i) * c.DEGREES / 2

/-- The grid `grid` with the cells `0 .. k-1` of row `r` holding the values of `f`. -/
def fill_row (grid : Int → Arr α) (r : Int) (f : Int → α) (k : Int) : Int → Arr α :=
  Function.update grid r (fun w => if 0 ≤ w ∧ w < k then f w else grid r w)

end SpecSide

section MessagepExample

/-- A layout of the flag word of `messagep.h`: error kind in the low four bits, then one bit
each for allow-continue, no-preamble, debug and no-debug. -/
def msgp_layout : MsgpFlags :=
  { NOFLAGBITS := 0x0f
    SYSTEM := 0x01
    USER := 0x02
    WARNING := 0x03
    ALLOWCONT := 0x10
    NOPREAMBLE := 0x20
    DBG := 0x40
    NODBG := 0x80 }

end MessagepExample

section Instrumented

variable {α : Type} [Field α]

/-- Indices of `s` stored by the loop `for(i=1; i < nrad; i++) s[i] = ...` after `k` iterations,
oldest first, appended to the stores `l` made before the loop. -/
def path_loop_writes : Nat → List Int → List Int
  | 0, l => l
  | k + 1, l => path_loop_writes k l ++ [(k : Int) + 1]

/-- Indices of `s` stored by lines 133-136 of `eclipsetau`: `s[0] = 0.0`, then the loop. -/
def eclipsetau_path_writes (nrad : Int) : List Int :=
  path_loop_writes (nrad - 1).toNat [0]

/-- The automatic array `s` of `eclipsetau`: the length with which line 109 declares it
(`PREC_RES s[nrad]`, before the two-point branch increments `nrad`), its contents when the
integrator is called (or the fault of a store outside the declared extent), and the indices
the stores of lines 133-136 address, oldest first. -/
structure PathArray (α : Type) where
  declared : Int
  s : Except Fault (Arr α)
  writes : List Int

/-- The array `s` of the call `eclipsetau(tr, height, ex)`; `none` when the function returns at
line 96, before `s` is declared. -/
def eclipsetau_s (pu : PU α) (junk : Arr α) (tr : transit α) (height : α) (ex : Arr α) :
    Option (PathArray α) :=
  let rs := pu.binsearchapprox tr.rads.v height 0 (tr.rads.n - 1)
  if rs = tr.rads.n - 1 then
    none
  else
    let p := eclipsetau_prep pu junk tr rs ex
    some { declared := p.slen
           s := eclipsetau_path junk p.radP p.slen p.nrad
           writes := eclipsetau_path_writes p.nrad }

end Instrumented

section SimpsonPair

variable {α : Type} [Field α]

/-- Contribution of one pair of intervals `[x0, x1]`, `[x1, x2]` with ordinates `y0`, `y1`,
`y2` to the Simpson Integrator of the specification: `hsum/6 * (y0*(2 - hratio) + y1*hfactor +
y2*(2 - 1/hratio))` with `hsum`, `hratio`, `hfactor` written out. -/
def simpson_pair (x0 x1 x2 y0 y1 y2 : α) : α :=
  ((x1 - x0) + (x2 - x1)) / 6
    * (y0 * (2 - (x2 - x1) / (x1 - x0))
        + y1 * (((x1 - x0) + (x2 - x1)) ^ 2 / ((x1 - x0) * (x2 - x1)))
        + y2 * (2 - 1 / ((x2 - x1) / (x1 - x0))))

end SimpsonPair

section Accesses

/-- The arrays `eclipse_intens` indexes in lines 188-249: the arguments `tau` and `temp`
(`tr->atm.t`) and the automatic arrays `B`, `tauInteg`, `tauIV`, each of length `rnn`. -/
inductive IntensArr where
  | tau
  | temp
  | B
  | tauInteg
  | tauIV
  deriving DecidableEq

/-- One array access: the array, the index, and whether it is a store. -/
structure Access where
  arr : IntensArr
  idx : Int
  store : Bool
  deriving DecidableEq

/-- Accesses of the loop `for(i=0; i <= last; i++)` of `eclipse_intens` after `k` iterations, in
program order.  Iteration `i`: line 210 `tauIV[i] = tau[i]`; lines 211-212
`B[i] = ... temp[rnn-1-i] ...`; line 213 `tauInteg[i] = B[i] * exp(-tau[i]/cos(angle))`. -/
def intens_layers_accesses (rnn : Int) : Nat → List Access
  | 0 => []
  | k + 1 =>
    intens_layers_accesses rnn k ++
      [ { arr := IntensArr.tau, idx := (k : Int), store := false },
        { arr := IntensArr.tauIV, idx := (k : Int), store := true },
        { arr := IntensArr.temp, idx := rnn - 1 - (k : Int), store := false },
        { arr := IntensArr.B, idx := (k : Int), store := true },
        { arr := IntensArr.B, idx := (k : Int), store := false },
        { arr := IntensArr.tau, idx := (k : Int), store := false },
        { arr := IntensArr.tauInteg, idx := (k : Int), store := true } ]

/-- Accesses of the loop `for(; i<rnn; i++)` of `eclipse_intens` after `k` iterations, entered
with `i = i0`.  Iteration `i`: line 219 `tauInteg[i] = 0`; line 222
`tauIV[i] = tauIV[i-1] + 1`. -/
def intens_pad_accesses (i0 : Int) : Nat → List Access
  | 0 => []
  | k + 1 =>
    intens_pad_accesses i0 k ++
      [ { arr := IntensArr.tauInteg, idx := i0 + (k : Int), store := true },
        { arr := IntensArr.tauIV, idx := i0 + (k : Int) - 1, store := false },
        { arr := IntensArr.tauIV, idx := i0 + (k : Int), store := true } ]

/-- Accesses of both loops of `eclipse_intens` (lines 209-223), with the iteration counts of
`intens_arrays`. -/
def intens_accesses (last rnn : Int) : List Access :=
  intens_layers_accesses rnn (last + 1).toNat
    ++ intens_pad_accesses ((last + 1).toNat : Int) (rnn - ((last + 1).toNat : Int)).toNat

end Accesses

section MoreExamples

variable {α : Type} [Field α]

/-- A five-layer atmosphere: radii `[1, 2, 3, 4, 5]`, temperatures decreasing upwards, one
incidence angle of `0` degrees. -/
def atm5 : transit α :=
  { rads := { n := 5, v := ofList [1, 2, 3, 4, 5], fct := 1 }
    wns := { n := 1, v := ofList [1000], fct := 1 }
    atm_t := ofList [1500, 1400, 1300, 1200, 1000]
    angles := ofList [0]
    angleIndex := 0
    ann := 1
    intens := fun _ _ => 0
    tau := { t := fun _ => ofList [0, 1, 2, 3, 4], last := fun _ => 1, toomuch := 2 }
    ds_out := OutRef.other
    pi := 0 }

/-- The three-layer atmosphere with the same temperature `1000` in every layer. -/
def atm3_iso : transit α :=
  { (atm3 : transit α) with atm_t := ofList [1000, 1000, 1000] }

end MoreExamples

/-! ## Theorems -/

section TheoremsArrays

variable {α : Type}

theorem three_apply (junk : Arr α) (a b c : α) (j : Int) :
    three junk a b c j = if j = 2 then c else if j = 1 then b else if j = 0 then a else junk j := by
  unfold three
  by_cases h2 : j = 2
  · subst h2; simp
  · by_cases h1 : j = 1
    · subst h1; simp
    · by_cases h0 : j = 0
      · subst h0; simp
      · simp [Function.update_noteq, h2, h1, h0]

/-- The stores `x[0] = a; x[2] = c; x[1] = b` of the two-point branch leave the array
`[a, b, c]`. -/
theorem update_021 (junk : Arr α) (a b c : α) :
    Function.update (Function.update (Function.update junk 0 a) 2 c) 1 b = three junk a b c := by
  funext j
  rw [three_apply]
  by_cases h2 : j = 2
  · subst h2; simp
  · by_cases h1 : j = 1
    · subst h1; simp
    · by_cases h0 : j = 0
      · subst h0; simp
      · simp [Function.update_noteq, h2, h1, h0]

end TheoremsArrays

section TheoremsPathArray

variable {α : Type} [Field α]

/-- Closed form of the path loop inside the declared extent: when the `k` iterations stay
below the declared length the loop ends without fault, and `s[i] = rad[i] - rad[0]` for
`0 <= i <= k`. -/
theorem path_loop_apply (slen : Int) (rad junk : Arr α) (k : Nat) (hk : (k : Int) < slen) :
    ∃ s : Arr α, path_loop slen rad k (Function.update junk 0 0) = Except.ok s
      ∧ ∀ i : Int, 0 ≤ i → i ≤ k → s i = rad i - rad 0 := by
  induction k with
  | zero =>
    refine ⟨_, rfl, ?_⟩
    intro i h0 hi
    have : i = 0 := by simp at hi; omega
    subst this
    simp
  | succ k ih =>
    obtain ⟨s1, hs1, hval⟩ := ih (by push_cast at hk; omega)
    have hb : 0 ≤ ((k : Int) + 1) ∧ ((k : Int) + 1) < slen := by push_cast at hk; omega
    refine ⟨Function.update s1 ((k : Int) + 1)
      (s1 ((k : Int) + 1 - 1) + (rad ((k : Int) + 1) - rad ((k : Int) + 1 - 1))), ?_, ?_⟩
    · simp only [path_loop, hs1, store_at, if_pos hb]
    · intro i h0 hi
      by_cases hik : i = (k : Int) + 1
      · subst hik
        rw [Function.update_same, hval _ (by omega) (by omega)]
        have e : (k : Int) + 1 - 1 = (k : Int) := by omega
        rw [e]
        ring
      · rw [Function.update_noteq hik]
        exact hval i h0 (by push_cast at hi; omega)

/-- The abscissa built by lines 133-136 when the point count does not exceed the declared
length: no fault, and `s[i] = rad[i] - rad[0]` below the point count. -/
theorem eclipsetau_path_apply (junk rad : Arr α) (slen nrad : Int) (h1 : 1 ≤ slen)
    (hn : nrad ≤ slen) :
    ∃ s : Arr α, eclipsetau_path junk rad slen nrad = Except.ok s
      ∧ ∀ i : Int, 0 ≤ i → i < nrad → s i = rad i - rad 0 := by
  obtain ⟨s, hs, hval⟩ := path_loop_apply slen rad junk (nrad - 1).toNat (by omega)
  refine ⟨s, ?_, fun i h0 hi => hval i h0 (by omega)⟩
  have hb : (0 : Int) ≤ 0 ∧ (0 : Int) < slen := ⟨le_refl _, by omega⟩
  simp only [eclipsetau_path, store_at, if_pos hb, hs]

/-- Lines 133-136 with `s` declared with two elements and the point count `3`: the stores
`s[0]` and `s[1]` are made, the store `s[2]` is outside the array. -/
theorem eclipsetau_path_two_points (junk rad : Arr α) :
    eclipsetau_path junk rad 2 3 = Except.error (Fault.storeOutside 2 2) := by
  have e : ((3 : Int) - 1).toNat = 2 := rfl
  simp [eclipsetau_path, e, path_loop, store_at]

end TheoremsPathArray

section TheoremsTopLayer

variable {α : Type} [Field α]

/-- C1: whenever the index search yields `rs = n-1`, `eclipsetau` returns exactly `0` and
leaves the radius and extinction arrays as they were, whatever the interpolation and
integration helpers are (none of them takes part in the result). -/
theorem eclipsetau_top_layer (pu : PU α) (junk : Arr α) (tr : transit α) (height : α)
    (ex : Arr α)
    (hrs : pu.binsearchapprox tr.rads.v height 0 (tr.rads.n - 1) = tr.rads.n - 1) :
    eclipsetau pu junk tr height ex = Except.ok { res := 0, rad := tr.rads.v, ex := ex } := by
  simp [eclipsetau, hrs]

end TheoremsTopLayer

section TheoremsEclipsetau

variable {α : Type} [LinearOrderedField α]

theorem spec_binsearchapprox_top (arr : Arr α) (val : α) (lo hi : Int) (h : arr hi ≤ val) :
    spec_binsearchapprox arr val lo hi = hi := by
  simp [spec_binsearchapprox, h]

/-- Witness of C1: on the strictly increasing grid `[1, 3/2, 2]` the search described by the
specification puts the height `2` (the topmost radius) at `rs = 2 = n-1`, and `eclipsetau`
returns `0` with both arrays untouched. -/
theorem eclipsetau_top_layer_witness :
    (specPU : PU ℚ).binsearchapprox (atm3 : transit ℚ).rads.v 2 0
        ((atm3 : transit ℚ).rads.n - 1) = (atm3 : transit ℚ).rads.n - 1
      ∧ eclipsetau (specPU : PU ℚ) (fun _ => 7) atm3 2 ex3
        = Except.ok { res := 0, rad := (atm3 : transit ℚ).rads.v, ex := ex3 } :=
  ⟨by simp [specPU, spec_binsearchapprox, atm3, ofList],
   eclipsetau_top_layer specPU (fun _ => 7) atm3 2 ex3
     (by simp [specPU, spec_binsearchapprox, atm3, ofList])⟩

/-- With the index search of the specification, a height equal to the topmost radius is
located at `rs = n-1`: `eclipsetau` returns `0` and leaves both arrays as they were. -/
theorem eclipsetau_at_top_radius (junk : Arr α) (tr : transit α) (ex : Arr α) :
    eclipsetau specPU junk tr (tr.rads.v (tr.rads.n - 1)) ex
      = Except.ok { res := 0, rad := tr.rads.v, ex := ex } := by
  have h : (specPU : PU α).binsearchapprox tr.rads.v (tr.rads.v (tr.rads.n - 1)) 0
      (tr.rads.n - 1) = tr.rads.n - 1 :=
    spec_binsearchapprox_top _ _ _ _ (le_refl _)
  simp [eclipsetau, h]

/-- The arithmetic of the two-point branch is the one the specification describes: the arrays
the branch hands on are the midpoint-augmented grid, and were the store `s[2]` inside the array
(an extent of `3` in place of the declared `2`), the integrator would give `midpoint_spec`.
`makeh` is the interval-length routine of the specification, `geth`, `simps` and `interp_parab`
are arbitrary. -/
theorem eclipsetau_two_points_arithmetic (pu : PU α) (junk : Arr α) (tr : transit α)
    (ex : Arr α) (hn : 3 ≤ tr.rads.n) (hmk : pu.makeh = spec_makeh) :
    (eclipsetau_prep pu junk tr (tr.rads.n - 2) ex).nrad = 3
      ∧ (eclipsetau_prep pu junk tr (tr.rads.n - 2) ex).slen = 2
      ∧ ∃ s : Arr α,
          eclipsetau_path junk (eclipsetau_prep pu junk tr (tr.rads.n - 2) ex).radP 3 3
            = Except.ok s
          ∧ integrate pu s (eclipsetau_prep pu junk tr (tr.rads.n - 2) ex).exP 3
            = midpoint_spec pu junk (tr.rads.v (tr.rads.n - 2)) (tr.rads.v (tr.rads.n - 2 + 1))
                (pu.interp_parab (shift tr.rads.v (tr.rads.n - 2 - 1))
                  (shift ex (tr.rads.n - 2 - 1)) (tr.rads.v (tr.rads.n - 2)))
                (ex (tr.rads.n - 2 + 1)) := by
  have h2 : tr.rads.n - (tr.rads.n - 2) = 2 := by omega
  have hne1 : tr.rads.n - 2 + 1 ≠ tr.rads.n - 2 := by omega
  refine ⟨by simp [eclipsetau_prep, h2], by simp [eclipsetau_prep, h2], ?_⟩
  obtain ⟨s, hs, hval⟩ := eclipsetau_path_apply junk
    (eclipsetau_prep pu junk tr (tr.rads.n - 2) ex).radP 3 3 (by norm_num) (le_refl _)
  refine ⟨s, hs, ?_⟩
  have hmake : spec_makeh s (fun _ => 0) 3
      = spec_makeh (eclipsetau_prep pu junk tr (tr.rads.n - 2) ex).radP (fun _ => 0) 3 := by
    funext i
    unfold spec_makeh
    by_cases hi : 0 ≤ i ∧ i < 3 - 1
    · rw [if_pos hi, if_pos hi, hval (i + 1) (by omega) (by omega), hval i hi.1 (by omega)]
      ring
    · rw [if_neg hi, if_neg hi]
  simp only [integrate, midpoint_spec, hmk, hmake]
  simp only [eclipsetau_prep, h2, if_true, Function.update_same, Function.update_noteq hne1,
    update_021]
  rw [add_comm (ex (tr.rads.n - 2 + 1))]

/-- C2 (failing input): when exactly two radius points remain (`rs = n-2`, grid of size
`n >= 3`) `eclipsetau` does not return the integrator's value on the midpoint-augmented grid,
nor any value: `s` is declared with two elements, the point count is then raised to three, and
the run ends in the store `s[2]` outside the array. -/
theorem eclipsetau_two_points_no_return (pu : PU α) (junk : Arr α) (tr : transit α)
    (height : α) (ex : Arr α) (hn : 3 ≤ tr.rads.n)
    (hrs : pu.binsearchapprox tr.rads.v height 0 (tr.rads.n - 1) = tr.rads.n - 2) :
    eclipsetau pu junk tr height ex = Except.error (Fault.storeOutside 2 2)
      ∧ ∀ r : TauResult α, eclipsetau pu junk tr height ex ≠ Except.ok r := by
  have hne : ¬ (tr.rads.n - 2 = tr.rads.n - 1) := by omega
  have h2 : tr.rads.n - (tr.rads.n - 2) = 2 := by omega
  have hf : eclipsetau pu junk tr height ex = Except.error (Fault.storeOutside 2 2) := by
    simp only [eclipsetau, hrs, if_neg hne, eclipsetau_prep, h2, if_true]
    norm_num
    rw [eclipsetau_path_two_points]
  refine ⟨hf, ?_⟩
  intro r hr
  rw [hf] at hr
  cases hr

/-- Witness of C2: on the grid `[1, 3/2, 2]` the height `3/2` is located at `rs = 1 = n-2`, and
the call with the extinction `[0.1, 0.05, 0.0]` ends in the store `s[2]`. -/
theorem eclipsetau_two_points_no_return_witness :
    3 ≤ (atm3 : transit ℚ).rads.n
      ∧ (specPU : PU ℚ).binsearchapprox (atm3 : transit ℚ).rads.v (3 / 2) 0
          ((atm3 : transit ℚ).rads.n - 1) = (atm3 : transit ℚ).rads.n - 2
      ∧ eclipsetau (specPU : PU ℚ) (fun _ => 7) atm3 (3 / 2) ex3
          = Except.error (Fault.storeOutside 2 2)
      ∧ ∀ r : TauResult ℚ, eclipsetau (specPU : PU ℚ) (fun _ => 7) atm3 (3 / 2) ex3 ≠ Except.ok r :=
  ⟨by simp [atm3],
   by simp [specPU, spec_binsearchapprox, bisect, atm3, ofList]; norm_num,
   eclipsetau_two_points_no_return specPU (fun _ => 7) atm3 (3 / 2) ex3 (by simp [atm3])
     (by simp [specPU, spec_binsearchapprox, bisect, atm3, ofList]; norm_num)⟩

end TheoremsEclipsetau

section TheoremsIntens

variable {α : Type} [Field α]

theorem intens_count_eq_min (last rnn : Int) : intens_count last rnn = min (last + 2) rnn := by
  unfold intens_count
  by_cases h : last + 2 > rnn
  · simp only [h, if_true]; omega
  · simp only [h, if_false]; omega

/-- C3: `eclipse_intens` raises the fatal "Less than 3 items" error exactly when the padded
point count `min(last+2, rnn)` is below 3, that is exactly when `last <= 0` or the radius grid
has fewer than 3 layers; for every other input it returns a value. -/
theorem eclipse_intens_fatal_iff (pu : PU α) (c : Consts α) (lm : Libm α) (junk : Arr α)
    (tr : transit α) (tau : Arr α) (w : α) (last : Int) (toomuch : α) (rad : prop_samp α) :
    (eclipse_intens pu c lm junk tr tau w last toomuch rad
        = Except.error (Fatal.lessThan3 (min (last + 2) rad.n))
      ↔ min (last + 2) rad.n < 3)
    ∧ (min (last + 2) rad.n < 3 ↔ (last ≤ 0 ∨ rad.n < 3))
    ∧ ((∃ v, eclipse_intens pu c lm junk tr tau w last toomuch rad = Except.ok v)
      ↔ ¬ (last ≤ 0 ∨ rad.n < 3))
    ∧ ((∃ e, eclipse_intens pu c lm junk tr tau w last toomuch rad = Except.error e)
      ↔ (last ≤ 0 ∨ rad.n < 3)) := by
  have hmin : min (last + 2) rad.n < 3 ↔ (last ≤ 0 ∨ rad.n < 3) := by
    constructor
    · intro h; omega
    · intro h; omega
  unfold eclipse_intens eclipse_intens_with
  simp only [intens_count_eq_min]
  by_cases h : min (last + 2) rad.n < 3
  · have h2 : last ≤ 0 ∨ rad.n < 3 := hmin.mp h
    simp [h, h2]
  · have h2 : ¬ (last ≤ 0 ∨ rad.n < 3) := fun h3 => h (hmin.mpr h3)
    simp [h, h2]

/-- Closed form of the arrays after `k` iterations of the first loop of `eclipse_intens`. -/
theorem intens_layers_apply (c : Consts α) (lm : Libm α) (tr : transit α) (tau : Arr α) (w : α)
    (rnn : Int) (angle : α) (k : Nat) (a : IntensArrays α) (i : Int) :
    ((intens_layers c lm tr tau w rnn angle k a).tauIV i
        = if 0 ≤ i ∧ i < k then tau i else a.tauIV i)
    ∧ ((intens_layers c lm tr tau w rnn angle k a).B i
        = if 0 ≤ i ∧ i < k then
            (2 * c.H * w * w * w * tr.wns.fct * tr.wns.fct * tr.wns.fct * c.LS * c.LS)
              / (lm.exp (c.H * w * tr.wns.fct * c.LS / (c.KB * tr.atm_t (rnn - 1 - i))) - 1)
          else a.B i)
    ∧ ((intens_layers c lm tr tau w rnn angle k a).tauInteg i
        = if 0 ≤ i ∧ i < k then
            (2 * c.H * w * w * w * tr.wns.fct * tr.wns.fct * tr.wns.fct * c.LS * c.LS)
              / (lm.exp (c.H * w * tr.wns.fct * c.LS / (c.KB * tr.atm_t (rnn - 1 - i))) - 1)
              * lm.exp (-tau i / lm.cos angle)
          else a.tauInteg i) := by
  induction k with
  | zero =>
    have h : ¬ (0 ≤ i ∧ i < ((0 : Nat) : Int)) := by
      intro h; have := h.2; simp at this; omega
    simp only [intens_layers, if_neg h, and_self]
  | succ k ih =>
    obtain ⟨ih1, ih2, ih3⟩ := ih
    by_cases hik : i = (k : Int)
    · subst hik
      have h : 0 ≤ (k : Int) ∧ (k : Int) < ((k + 1 : Nat) : Int) := by
        constructor
        · omega
        · push_cast; omega
      simp only [intens_layers, Function.update_same, if_pos h, and_self]
    · simp only [intens_layers, Function.update_noteq hik, ih1, ih2, ih3]
      by_cases h : 0 ≤ i ∧ i < (k : Int)
      · have h' : 0 ≤ i ∧ i < ((k + 1 : Nat) : Int) := by
          constructor
          · exact h.1
          · push_cast; omega
        simp only [if_pos h, if_pos h', and_self]
      · have h' : ¬ (0 ≤ i ∧ i < ((k + 1 : Nat) : Int)) := by
          intro h2
          apply h
          constructor
          · exact h2.1
          · have := h2.2; push_cast at this; omega
        simp only [if_neg h, if_neg h', and_self]

/-- Closed form of the arrays after `k` iterations of the padding loop of `eclipse_intens`
entered at `i = i0`. -/
theorem intens_pad_apply (step : α) (i0 : Int) (k : Nat) (a : IntensArrays α) (i : Int) :
    ((intens_pad step i0 k a).B i = a.B i)
    ∧ ((intens_pad step i0 k a).tauInteg i
        = if i0 ≤ i ∧ i < i0 + k then 0 else a.tauInteg i)
    ∧ ((intens_pad step i0 k a).tauIV i
        = if i0 ≤ i ∧ i < i0 + k then a.tauIV (i0 - 1) + ((i - i0 + 1 : Int) : α) * step
          else a.tauIV i) := by
  induction k generalizing i with
  | zero =>
    have h : ¬ (i0 ≤ i ∧ i < i0 + ((0 : Nat) : Int)) := by
      intro h; have := h.2; simp at this; omega
    simp only [intens_pad, if_neg h, and_self]
  | succ k ih =>
    by_cases hik : i = i0 + (k : Int)
    · subst hik
      have h : i0 ≤ i0 + (k : Int) ∧ i0 + (k : Int) < i0 + ((k + 1 : Nat) : Int) := by
        constructor
        · omega
        · push_cast; omega
      simp only [intens_pad, Function.update_same, if_pos h, (ih _).1, true_and]
      rw [(ih (i0 + (k : Int) - 1)).2.2]
      by_cases hk : k = 0
      · subst hk
        have h0 : ¬ (i0 ≤ i0 + ((0 : Nat) : Int) - 1 ∧ i0 + ((0 : Nat) : Int) - 1 < i0 + ((0 : Nat) : Int)) := by
          intro h; have := h.1; simp at this
        rw [if_neg h0]
        simp
      · have h1 : i0 ≤ i0 + (k : Int) - 1 ∧ i0 + (k : Int) - 1 < i0 + (k : Int) := by
          constructor
          · omega
          · omega
        rw [if_pos h1]
        have e1 : i0 + (k : Int) - 1 - i0 + 1 = (k : Int) := by omega
        have e2 : i0 + (k : Int) - i0 + 1 = (k : Int) + 1 := by omega
        rw [e1, e2]
        push_cast
        ring
    · obtain ⟨ih1, ih2, ih3⟩ := ih i
      simp only [intens_pad, Function.update_noteq hik, ih1, ih2, ih3, true_and]
      by_cases h : i0 ≤ i ∧ i < i0 + (k : Int)
      · have h' : i0 ≤ i ∧ i < i0 + ((k + 1 : Nat) : Int) := by
          constructor
          · exact h.1
          · push_cast; omega
        simp only [if_pos h, if_pos h', and_self]
      · have h' : ¬ (i0 ≤ i ∧ i < i0 + ((k + 1 : Nat) : Int)) := by
          intro h2
          apply h
          constructor
          · exact h2.1
          · have := h2.2; push_cast at this; omega
        simp only [if_neg h, if_neg h', and_self]

/-- The code's Planck expression is the formula of the specification. -/
theorem planck_code_eq_spec (c : Consts α) (lm : Libm α) (wfct w T : α) :
    (2 * c.H * w * w * w * wfct * wfct * wfct * c.LS * c.LS)
        / (lm.exp (c.H * w * wfct * c.LS / (c.KB * T)) - 1)
      = planck_spec c lm wfct w T := by
  unfold planck_spec
  congr 1
  ring

/-- Integrand and abscissa of `eclipse_intens` on the layers `0 .. last`. -/
theorem intens_arrays_layer (step : α) (c : Consts α) (lm : Libm α) (junk : Arr α)
    (tr : transit α) (tau : Arr α) (w : α) (last rnn : Int) (i : Int) (hi0 : 0 ≤ i)
    (hil : i ≤ last) :
    (intens_arrays step c lm junk tr tau w last rnn).tauInteg i
        = planck_spec c lm tr.wns.fct w (tr.atm_t (rnn - 1 - i))
            * lm.exp (-tau i / lm.cos (tr.angles tr.angleIndex * c.DEGREES))
      ∧ (intens_arrays step c lm junk tr tau w last rnn).tauIV i = tau i := by
  have hk : ((last + 1).toNat : Int) = last + 1 := Int.toNat_of_nonneg (by omega)
  have hpad : ∀ k : Nat, ¬ (((last + 1).toNat : Int) ≤ i ∧ i < ((last + 1).toNat : Int) + k) := by
    intro k h
    have := h.1
    omega
  have hlay : 0 ≤ i ∧ i < ((last + 1).toNat : Int) := by
    constructor
    · exact hi0
    · omega
  unfold intens_arrays
  simp only []
  constructor
  · rw [(intens_pad_apply step _ _ _ i).2.1, if_neg (hpad _),
      (intens_layers_apply c lm tr tau w rnn _ _ _ i).2.2, if_pos hlay, planck_code_eq_spec]
  · rw [(intens_pad_apply step _ _ _ i).2.2, if_neg (hpad _),
      (intens_layers_apply c lm tr tau w rnn _ _ _ i).1, if_pos hlay]

/-- C5: for every layer `i` with `0 <= i <= last` the integrand built by `eclipse_intens` is
`B(w, temp[rnn-1-i]) * exp(-tau[i]/cos(theta))` with abscissa `tau[i]`, where `B` is the Planck
formula of the specification and `theta = angles[angleIndex]*DEGREES`; the value returned
(whenever at least 3 points are available) is the integrator's result on the integrand and
abscissa arrays, divided by `cos(theta)`. -/
theorem eclipse_intens_integrand (pu : PU α) (c : Consts α) (lm : Libm α) (junk : Arr α)
    (tr : transit α) (tau : Arr α) (w : α) (last : Int) (toomuch : α) (rad : prop_samp α)
    (i : Int) (hi0 : 0 ≤ i) (hil : i ≤ last) :
    (intens_arrays 1 c lm junk tr tau w last rad.n).tauInteg i
        = planck_spec c lm tr.wns.fct w (tr.atm_t (rad.n - 1 - i))
            * lm.exp (-tau i / lm.cos (tr.angles tr.angleIndex * c.DEGREES))
      ∧ (intens_arrays 1 c lm junk tr tau w last rad.n).tauIV i = tau i
      ∧ eclipse_intens pu c lm junk tr tau w last toomuch rad
        = if intens_count last rad.n < 3 then
            Except.error (Fatal.lessThan3 (intens_count last rad.n))
          else
            Except.ok
              (integrate pu (intens_arrays 1 c lm junk tr tau w last rad.n).tauIV
                  (intens_arrays 1 c lm junk tr tau w last rad.n).tauInteg
                  (intens_count last rad.n)
                / lm.cos (tr.angles tr.angleIndex * c.DEGREES)) :=
  ⟨(intens_arrays_layer 1 c lm junk tr tau w last rad.n i hi0 hil).1,
   (intens_arrays_layer 1 c lm junk tr tau w last rad.n i hi0 hil).2,
   rfl⟩

/-- Witness of C5: layer `i = 1` of the three-layer atmosphere with `last = 1`, real `exp` and
`cos`, CGS constants; three points are available and the call returns. -/
theorem eclipse_intens_integrand_witness :
    (0 : Int) ≤ 1 ∧ (1 : Int) ≤ 1
      ∧ (intens_arrays 1 (cgs Real.pi) (Libm.mk Real.exp Real.cos Real.sin) (fun _ => 7)
            (atm3 : transit ℝ) (ofList [0, 1, 2]) 1000 1 (atm3 : transit ℝ).rads.n).tauInteg 1
          = planck_spec (cgs Real.pi) (Libm.mk Real.exp Real.cos Real.sin)
              (atm3 : transit ℝ).wns.fct 1000
              ((atm3 : transit ℝ).atm_t ((atm3 : transit ℝ).rads.n - 1 - 1))
            * Real.exp (-(ofList [0, 1, 2] : Arr ℝ) 1
                / Real.cos ((atm3 : transit ℝ).angles (atm3 : transit ℝ).angleIndex
                    * (cgs Real.pi).DEGREES))
      ∧ (intens_arrays 1 (cgs Real.pi) (Libm.mk Real.exp Real.cos Real.sin) (fun _ => 7)
            (atm3 : transit ℝ) (ofList [0, 1, 2]) 1000 1 (atm3 : transit ℝ).rads.n).tauIV 1
          = (ofList [0, 1, 2] : Arr ℝ) 1
      ∧ eclipse_intens (specPU : PU ℝ) (cgs Real.pi) (Libm.mk Real.exp Real.cos Real.sin)
            (fun _ => 7) (atm3 : transit ℝ) (ofList [0, 1, 2]) 1000 1 10
            (atm3 : transit ℝ).rads
          = Except.ok
              (integrate (specPU : PU ℝ)
                  (intens_arrays 1 (cgs Real.pi) (Libm.mk Real.exp Real.cos Real.sin)
                    (fun _ => 7) (atm3 : transit ℝ) (ofList [0, 1, 2]) 1000 1
                    (atm3 : transit ℝ).rads.n).tauIV
                  (intens_arrays 1 (cgs Real.pi) (Libm.mk Real.exp Real.cos Real.sin)
                    (fun _ => 7) (atm3 : transit ℝ) (ofList [0, 1, 2]) 1000 1
                    (atm3 : transit ℝ).rads.n).tauInteg
                  3
                / Real.cos ((atm3 : transit ℝ).angles (atm3 : transit ℝ).angleIndex
                    * (cgs Real.pi).DEGREES)) := by
  have h := eclipse_intens_integrand (specPU : PU ℝ) (cgs Real.pi)
    (Libm.mk Real.exp Real.cos Real.sin) (fun _ => 7) (atm3 : transit ℝ) (ofList [0, 1, 2])
    1000 1 10 (atm3 : transit ℝ).rads 1 (by norm_num) (by norm_num)
  have hc : intens_count 1 (atm3 : transit ℝ).rads.n = 3 := by
    simp [intens_count, atm3]
  rw [hc] at h
  exact ⟨by norm_num, by norm_num, h.1, h.2.1, by simpa using h.2.2⟩

end TheoremsIntens

section TheoremsFrame

variable {α : Type} [LinearOrderedField α]

/-- The bisection never leaves its bracket. -/
theorem bisect_range (arr : Arr α) (val : α) (fuel : Nat) (lo hi : Int) (h : lo ≤ hi) :
    lo ≤ bisect arr val fuel lo hi ∧ bisect arr val fuel lo hi ≤ hi := by
  induction fuel generalizing lo hi with
  | zero => simp [bisect, h]
  | succ fuel ih =>
    unfold bisect
    by_cases h1 : hi - lo ≤ 1
    · simp [h1, h]
    · simp only [h1, if_false]
      have hm1 : lo ≤ (lo + hi) / 2 := by omega
      have hm2 : (lo + hi) / 2 ≤ hi := by omega
      by_cases h2 : arr ((lo + hi) / 2) ≤ val
      · simp only [h2, if_true]
        have := ih ((lo + hi) / 2) hi hm2
        omega
      · simp only [h2, if_false]
        have := ih lo ((lo + hi) / 2) hm1
        omega

/-- The index search of the specification answers inside `[lo, hi]`. -/
theorem spec_binsearchapprox_range (arr : Arr α) (val : α) (lo hi : Int) (h : lo ≤ hi) :
    lo ≤ spec_binsearchapprox arr val lo hi ∧ spec_binsearchapprox arr val lo hi ≤ hi := by
  unfold spec_binsearchapprox
  by_cases h1 : arr hi ≤ val
  · simp [h1, h]
  · simp only [h1, if_false]
    exact bisect_range arr val _ lo hi h

/-- The parabola through three points with distinct abscissas takes the first ordinate at the
first abscissa. -/
theorem spec_interp_parab_first (x y : Arr α) (h01 : x 0 ≠ x 1) (h02 : x 0 ≠ x 2) :
    spec_interp_parab x y (x 0) = y 0 := by
  unfold spec_interp_parab
  have d1 : x 0 - x 1 ≠ 0 := sub_ne_zero.mpr h01
  have d2 : x 0 - x 2 ≠ 0 := sub_ne_zero.mpr h02
  have hd : (x 0 - x 1) * (x 0 - x 2) ≠ 0 := mul_ne_zero d1 d2
  rw [sub_self, zero_mul, mul_zero, zero_div, zero_mul, mul_zero, zero_div, add_zero, add_zero,
    mul_div_assoc, div_self hd, mul_one]

/-- The grid `[1, 3/2, 2]` is strictly increasing. -/
theorem atm3_increasing (i j : Int) (h0 : 0 ≤ i) (hij : i < j)
    (hj : j < (atm3 : transit ℚ).rads.n) :
    (atm3 : transit ℚ).rads.v i < (atm3 : transit ℚ).rads.v j := by
  have hn : (atm3 : transit ℚ).rads.n = 3 := rfl
  rw [hn] at hj
  have h : (i = 0 ∧ j = 1) ∨ (i = 0 ∧ j = 2) ∨ (i = 1 ∧ j = 2) := by omega
  rcases h with ⟨hi, hj⟩ | ⟨hi, hj⟩ | ⟨hi, hj⟩
  · subst hi; subst hj; simp [atm3, ofList]; norm_num
  · subst hi; subst hj; simp [atm3, ofList]
  · subst hi; subst hj; simp [atm3, ofList]; norm_num

end TheoremsFrame

section TheoremsFlux

variable {α : Type} [Field α]

/-- Closed form of the area grid after `k` iterations of its loop. -/
theorem area_loop_apply (c : Consts α) (angles : Arr α) (k : Nat) (g : Arr α) (i : Int) :
    area_loop c angles k g i
      = if 1 ≤ i ∧ i ≤ k then (angles (i - 1) + angles i) * c.DEGREES / 2 else g i := by
  induction k with
  | zero =>
    have h : ¬ (1 ≤ i ∧ i ≤ ((0 : Nat) : Int)) := by
      intro h; have := h.2; simp at this; omega
    simp only [area_loop, if_neg h]
  | succ k ih =>
    by_cases hik : i = (k : Int) + 1
    · subst hik
      have h : 1 ≤ (k : Int) + 1 ∧ (k : Int) + 1 ≤ ((k + 1 : Nat) : Int) := by
        constructor
        · omega
        · push_cast; omega
      simp only [area_loop, Function.update_same, if_pos h]
    · simp only [area_loop, Function.update_noteq hik, ih]
      by_cases h : 1 ≤ i ∧ i ≤ (k : Int)
      · have h' : 1 ≤ i ∧ i ≤ ((k + 1 : Nat) : Int) := by
          constructor
          · exact h.1
          · push_cast; omega
        simp only [if_pos h, if_pos h']
      · have h' : ¬ (1 ≤ i ∧ i ≤ ((k + 1 : Nat) : Int)) := by
          intro h2
          apply h
          constructor
          · exact h2.1
          · have := h2.2; push_cast at this; omega
        simp only [if_neg h, if_neg h']

/-- On the boundaries `0 .. an` the area grid built by `flux` is the grid of the
specification. -/
theorem flux_area_grid_eq_spec (c : Consts α) (angles : Arr α) (an : Int) (han : 1 ≤ an)
    (i : Int) (hi0 : 0 ≤ i) (hi : i ≤ an) :
    flux_area_grid c angles an i = area_grid_spec c angles an i := by
  unfold flux_area_grid area_grid_spec
  simp only [area_loop_apply]
  have hk : (((an - 1).toNat : Nat) : Int) = an - 1 := Int.toNat_of_nonneg (by omega)
  rw [hk]
  by_cases h0 : i = 0
  · subst h0
    have hne : (0 : Int) ≠ an := by omega
    simp [Function.update_noteq hne]
  · by_cases h1 : i = an
    · subst h1
      have h : ¬ (1 ≤ i ∧ i ≤ i - 1) := by omega
      simp [h, h0]
    · have h : 1 ≤ i ∧ i ≤ an - 1 := by omega
      simp [h, h0, h1]

/-- Closed form of the flux array after `k` iterations of the wavenumber loop. -/
theorem flux_inner_apply (c : Consts α) (row : Arr α) (area : α) (k : Nat) (out : Arr α)
    (w : Int) :
    flux_inner c row area k out w
      = if 0 ≤ w ∧ w < k then out w + c.PI * row w * area else out w := by
  induction k with
  | zero =>
    have h : ¬ (0 ≤ w ∧ w < ((0 : Nat) : Int)) := by
      intro h; have := h.2; simp at this; omega
    simp only [flux_inner, if_neg h]
  | succ k ih =>
    by_cases hwk : w = (k : Int)
    · subst hwk
      have h : 0 ≤ (k : Int) ∧ (k : Int) < ((k + 1 : Nat) : Int) := by
        constructor
        · omega
        · push_cast; omega
      have h' : ¬ (0 ≤ (k : Int) ∧ (k : Int) < (k : Int)) := by omega
      simp only [flux_inner, Function.update_same, if_pos h, ih, if_neg h']
    · simp only [flux_inner, Function.update_noteq hwk, ih]
      by_cases h : 0 ≤ w ∧ w < (k : Int)
      · have h' : 0 ≤ w ∧ w < ((k + 1 : Nat) : Int) := by
          constructor
          · exact h.1
          · push_cast; omega
        simp only [if_pos h, if_pos h']
      · have h' : ¬ (0 ≤ w ∧ w < ((k + 1 : Nat) : Int)) := by
          intro h2
          apply h
          constructor
          · exact h2.1
          · have := h2.2; push_cast at this; omega
        simp only [if_neg h, if_neg h']

/-- Closed form of the flux array after `k` iterations of the angle loop, started from
zeros. -/
theorem flux_outer_apply (c : Consts α) (lm : Libm α) (grid : Int → Arr α) (g : Arr α)
    (wnn : Int) (k : Nat) (w : Int) :
    flux_outer c lm grid g wnn k (fun _ => 0) w
      = if 0 ≤ w ∧ w < wnn then
          Finset.sum (Finset.range k) fun j =>
            c.PI * grid (j : Int) w * (lm.sin (g ((j : Int) + 1)) ^ 2 - lm.sin (g (j : Int)) ^ 2)
        else 0 := by
  induction k with
  | zero => simp [flux_outer]
  | succ k ih =>
    simp only [flux_outer, flux_inner_apply, ih, Finset.sum_range_succ]
    by_cases h : 0 ≤ w ∧ w < wnn
    · have h' : 0 ≤ w ∧ w < ((wnn.toNat : Nat) : Int) := by
        constructor
        · exact h.1
        · rw [Int.toNat_of_nonneg (by omega)]; exact h.2
      simp only [if_pos h, if_pos h']
    · have h' : ¬ (0 ≤ w ∧ w < ((wnn.toNat : Nat) : Int)) := by
        intro h2
        apply h
        constructor
        · exact h2.1
        · have := h2.2
          have h3 : 0 ≤ wnn := by
            by_contra hneg
            have : wnn.toNat = 0 := Int.toNat_eq_zero.mpr (by omega)
            omega
          rw [Int.toNat_of_nonneg h3] at this
          exact this
      simp only [if_neg h, if_neg h']

/-- The flux array in terms of the area grid that `flux` builds. -/
theorem flux_out_apply (c : Consts α) (lm : Libm α) (tr : transit α) (w : Int) :
    (flux c lm tr).out w
      = if 0 ≤ w ∧ w < tr.wns.n then
          Finset.sum (Finset.range tr.ann.toNat) fun j =>
            c.PI * tr.intens (j : Int) w
              * (lm.sin (flux_area_grid c tr.angles tr.ann ((j : Int) + 1)) ^ 2
                  - lm.sin (flux_area_grid c tr.angles tr.ann (j : Int)) ^ 2)
        else 0 := by
  unfold flux
  simp only [flux_outer_apply]

/-- C6: for `an >= 1` angles, `flux` writes at every wavenumber index `w` of `[0, wnn)` the sum
over the angles of `PI * intens_grid[i][w] * (sin^2(g[i+1]) - sin^2(g[i]))`, `g` being the area
grid of the specification (`g[0] = 0`, `g[an] = 90*DEGREES`, midpoints in between); the array
starts from zeros (and stays zero outside `[0, wnn)`), nothing else enters the result. -/
theorem flux_formula (c : Consts α) (lm : Libm α) (tr : transit α) (han : 1 ≤ tr.ann)
    (w : Int) :
    (flux c lm tr).out w
      = if 0 ≤ w ∧ w < tr.wns.n then
          Finset.sum (Finset.range tr.ann.toNat) fun j =>
            c.PI * tr.intens (j : Int) w
              * (lm.sin (area_grid_spec c tr.angles tr.ann ((j : Int) + 1)) ^ 2
                  - lm.sin (area_grid_spec c tr.angles tr.ann (j : Int)) ^ 2)
        else 0 := by
  rw [flux_out_apply]
  by_cases h : 0 ≤ w ∧ w < tr.wns.n
  · rw [if_pos h, if_pos h]
    apply Finset.sum_congr rfl
    intro j hj
    have hj' : (j : Int) < tr.ann := by
      have := Finset.mem_range.mp hj
      omega
    rw [flux_area_grid_eq_spec c tr.angles tr.ann han ((j : Int) + 1) (by omega) (by omega),
      flux_area_grid_eq_spec c tr.angles tr.ann han (j : Int) (by omega) (by omega)]
  · rw [if_neg h, if_neg h]

/-- Witness of C6: the three-layer atmosphere with two angles, wavenumber index `0`. -/
theorem flux_formula_witness :
    1 ≤ (atm3_flat : transit ℝ).ann
      ∧ (flux (cgs Real.pi) (Libm.mk Real.exp Real.cos Real.sin) (atm3_flat : transit ℝ)).out 0
        = if (0 : Int) ≤ 0 ∧ (0 : Int) < (atm3_flat : transit ℝ).wns.n then
            Finset.sum (Finset.range (atm3_flat : transit ℝ).ann.toNat) fun j =>
              (cgs Real.pi).PI * (atm3_flat : transit ℝ).intens (j : Int) 0
                * (Real.sin (area_grid_spec (cgs Real.pi) (atm3_flat : transit ℝ).angles
                      (atm3_flat : transit ℝ).ann ((j : Int) + 1)) ^ 2
                    - Real.sin (area_grid_spec (cgs Real.pi) (atm3_flat : transit ℝ).angles
                      (atm3_flat : transit ℝ).ann (j : Int)) ^ 2)
          else 0 :=
  ⟨by simp [atm3_flat, atm3],
   flux_formula (cgs Real.pi) (Libm.mk Real.exp Real.cos Real.sin) (atm3_flat : transit ℝ)
     (by simp [atm3_flat, atm3]) 0⟩

/-- The projected-area weights of `flux` telescope. -/
theorem flux_weights_telescope (c : Consts α) (lm : Libm α) (angles : Arr α) (an : Int)
    (han : 1 ≤ an) :
    (Finset.sum (Finset.range an.toNat) fun j =>
        lm.sin (flux_area_grid c angles an ((j : Int) + 1)) ^ 2
          - lm.sin (flux_area_grid c angles an (j : Int)) ^ 2)
      = lm.sin (90 * c.DEGREES) ^ 2 - lm.sin 0 ^ 2 := by
  have hsum := Finset.sum_range_sub
    (fun j : Nat => lm.sin (flux_area_grid c angles an (j : Int)) ^ 2) an.toNat
  have hcast : ∀ j : Nat, (((j + 1 : Nat) : Int)) = (j : Int) + 1 := fun j => by push_cast; rfl
  simp only [hcast] at hsum
  rw [hsum, Int.toNat_of_nonneg (by omega : 0 ≤ an)]
  rw [flux_area_grid_eq_spec c angles an han an (by omega) (le_refl _),
    flux_area_grid_eq_spec c angles an han ((0 : Nat) : Int) (by simp) (by simp; omega)]
  have hne : an ≠ 0 := by omega
  simp [area_grid_spec, hne]

/-- C7: for every list of `an >= 1` incidence angles the projected-area weights
`sin^2(g[i+1]) - sin^2(g[i])` used by `flux` sum to exactly 1 (with `sin(90*DEGREES) = 1` and
`sin 0 = 0`); hence when every angle row of the intensity grid holds the same intensity
`I[w]`, `flux[w] = PI * I[w]` at every wavenumber index. -/
theorem flux_weights_sum (c : Consts α) (lm : Libm α) (tr : transit α) (han : 1 ≤ tr.ann)
    (h90 : lm.sin (90 * c.DEGREES) = 1) (h0 : lm.sin 0 = 0) (I : Arr α)
    (hI : ∀ i w : Int, 0 ≤ i → i < tr.ann → tr.intens i w = I w)
    (w : Int) (hw0 : 0 ≤ w) (hw : w < tr.wns.n) :
    (Finset.sum (Finset.range tr.ann.toNat) fun j =>
        lm.sin (flux_area_grid c tr.angles tr.ann ((j : Int) + 1)) ^ 2
          - lm.sin (flux_area_grid c tr.angles tr.ann (j : Int)) ^ 2) = 1
      ∧ (flux c lm tr).out w = c.PI * I w := by
  have hsum := flux_weights_telescope c lm tr.angles tr.ann han
  rw [h90, h0] at hsum
  have hone : (Finset.sum (Finset.range tr.ann.toNat) fun j =>
        lm.sin (flux_area_grid c tr.angles tr.ann ((j : Int) + 1)) ^ 2
          - lm.sin (flux_area_grid c tr.angles tr.ann (j : Int)) ^ 2) = 1 := by
    rw [hsum]; norm_num
  refine ⟨hone, ?_⟩
  rw [flux_out_apply, if_pos ⟨hw0, hw⟩]
  have hrow : ∀ j ∈ Finset.range tr.ann.toNat,
      c.PI * tr.intens (j : Int) w
          * (lm.sin (flux_area_grid c tr.angles tr.ann ((j : Int) + 1)) ^ 2
              - lm.sin (flux_area_grid c tr.angles tr.ann (j : Int)) ^ 2)
        = c.PI * I w
          * (lm.sin (flux_area_grid c tr.angles tr.ann ((j : Int) + 1)) ^ 2
              - lm.sin (flux_area_grid c tr.angles tr.ann (j : Int)) ^ 2) := by
    intro j hj
    have hj' : (j : Int) < tr.ann := by
      have := Finset.mem_range.mp hj
      omega
    rw [hI (j : Int) w (by omega) hj']
  rw [Finset.sum_congr rfl hrow, ← Finset.mul_sum, hone, mul_one]

/-- The real sine at `90 * (pi / 180)` is `1`. -/
theorem sin_ninety_degrees : Real.sin (90 * (cgs Real.pi).DEGREES) = 1 := by
  have h : 90 * (cgs Real.pi).DEGREES = Real.pi / 2 := by
    simp only [cgs]; ring
  rw [h, Real.sin_pi_div_two]

/-- Witness of C7: two angles `[0, 60]` degrees, every row of the grid holding `[5, 7]`, real
sine and `DEGREES = pi / 180`. -/
theorem flux_weights_sum_witness :
    1 ≤ (atm3_flat : transit ℝ).ann
      ∧ Real.sin (90 * (cgs Real.pi).DEGREES) = 1
      ∧ Real.sin 0 = 0
      ∧ (∀ i w : Int, 0 ≤ i → i < (atm3_flat : transit ℝ).ann
          → (atm3_flat : transit ℝ).intens i w = (ofList [5, 7] : Arr ℝ) w)
      ∧ (0 : Int) ≤ 1 ∧ (1 : Int) < (atm3_flat : transit ℝ).wns.n
      ∧ (Finset.sum (Finset.range (atm3_flat : transit ℝ).ann.toNat) fun j =>
          Real.sin (flux_area_grid (cgs Real.pi) (atm3_flat : transit ℝ).angles
              (atm3_flat : transit ℝ).ann ((j : Int) + 1)) ^ 2
            - Real.sin (flux_area_grid (cgs Real.pi) (atm3_flat : transit ℝ).angles
              (atm3_flat : transit ℝ).ann (j : Int)) ^ 2) = 1
      ∧ (flux (cgs Real.pi) (Libm.mk Real.exp Real.cos Real.sin) (atm3_flat : transit ℝ)).out 1
          = (cgs Real.pi).PI * (ofList [5, 7] : Arr ℝ) 1 :=
  ⟨by simp [atm3_flat, atm3], sin_ninety_degrees, Real.sin_zero,
   fun _ _ _ _ => rfl, by norm_num, by simp [atm3_flat, atm3],
   flux_weights_sum (cgs Real.pi) (Libm.mk Real.exp Real.cos Real.sin) (atm3_flat : transit ℝ)
     (by simp [atm3_flat, atm3]) sin_ninety_degrees Real.sin_zero (ofList [5, 7])
     (fun _ _ _ _ => rfl) 1 (by norm_num) (by simp [atm3_flat, atm3])⟩

end TheoremsFlux

section TheoremsDriver

variable {α : Type}

theorem fill_row_zero (grid : Int → Arr α) (r : Int) (f : Int → α) :
    fill_row grid r f 0 = grid := by
  unfold fill_row
  have h : (fun w : Int => if 0 ≤ w ∧ w < 0 then f w else grid r w) = grid r := by
    funext w
    have hw : ¬ (0 ≤ w ∧ w < 0) := by omega
    rw [if_neg hw]
  rw [h, Function.update_eq_self]

/-- Storing `f k` in cell `k` of the row filled below `k` gives the row filled below `k+1`. -/
theorem fill_row_succ (grid : Int → Arr α) (r : Int) (f : Int → α) (k : Nat) :
    Function.update (fill_row grid r f k) r
        (Function.update (fill_row grid r f k r) (k : Int) (f k))
      = fill_row grid r f ((k + 1 : Nat) : Int) := by
  unfold fill_row
  rw [Function.update_idem, Function.update_same]
  refine congrArg (Function.update grid r) ?_
  funext w
  by_cases hwk : w = (k : Int)
  · subst hwk
    have h : 0 ≤ (k : Int) ∧ (k : Int) < ((k + 1 : Nat) : Int) := by
      constructor
      · omega
      · push_cast; omega
    rw [Function.update_same, if_pos h]
  · rw [Function.update_noteq hwk]
    by_cases h : 0 ≤ w ∧ w < (k : Int)
    · have h' : 0 ≤ w ∧ w < ((k + 1 : Nat) : Int) := by
        constructor
        · exact h.1
        · push_cast; omega
      rw [if_pos h, if_pos h']
    · have h' : ¬ (0 ≤ w ∧ w < ((k + 1 : Nat) : Int)) := by
        intro h2
        apply h
        constructor
        · exact h2.1
        · have := h2.2; push_cast at this; omega
      rw [if_neg h, if_neg h']

/-- Invariant of the wavenumber loop of `emergent_intens`: after `k` iterations the cells
`0 .. k-1` of the row hold the returned spectrum values, each stored once, in order. -/
theorem emergent_loop_inv (sol : ray_solution α) (tr0 : transit α) (ai : Int) (f : Int → α)
    (n : Nat)
    (hsol : ∀ k : Nat, k < n →
      sol.spectrum { tr0 with intens := fill_row tr0.intens ai f k } (tr0.tau.t k)
        (tr0.wns.v k) (tr0.tau.last k) tr0.tau.toomuch tr0.rads = Except.ok (f k))
    (k : Nat) (hk : k ≤ n) :
    emergent_loop sol ai k { tr := tr0, writes := [] }
      = Except.ok
          { tr := { tr0 with intens := fill_row tr0.intens ai f k }
            writes := (List.range k).map fun j : Nat => (ai, (j : Int)) } := by
  induction k with
  | zero =>
    simp only [emergent_loop, List.range_zero, List.map_nil, Nat.cast_zero, fill_row_zero]
  | succ k ih =>
    unfold emergent_loop
    rw [ih (by omega)]
    simp only []
    rw [hsol k (by omega)]
    simp only [fill_row_succ, List.range_succ, List.map_append, List.map_cons, List.map_nil]

/-- The first loop of `eclipse_intens` reads only `wns.fct` and `atm.t` of the transit
structure. -/
theorem intens_layers_congr [Field α] (c : Consts α) (lm : Libm α) (tr tr' : transit α)
    (hf : tr.wns.fct = tr'.wns.fct) (ht : tr.atm_t = tr'.atm_t) (tau : Arr α) (w : α)
    (rnn : Int) (angle : α) (k : Nat) (a : IntensArrays α) :
    intens_layers c lm tr tau w rnn angle k a = intens_layers c lm tr' tau w rnn angle k a := by
  induction k with
  | zero => rfl
  | succ k ih => simp only [intens_layers, ih, hf, ht]

/-- The value of `eclipse_intens` depends on the transit structure only through `wns.fct`,
`atm.t`, `angles` and `angleIndex`. -/
theorem eclipse_intens_congr [Field α] (pu : PU α) (c : Consts α) (lm : Libm α) (junk : Arr α)
    (tr tr' : transit α) (hf : tr.wns.fct = tr'.wns.fct) (ht : tr.atm_t = tr'.atm_t)
    (ha : tr.angles = tr'.angles) (hi : tr.angleIndex = tr'.angleIndex)
    (tau : Arr α) (w : α) (last : Int) (toomuch : α) (rad : prop_samp α) :
    eclipse_intens pu c lm junk tr tau w last toomuch rad
      = eclipse_intens pu c lm junk tr' tau w last toomuch rad := by
  unfold eclipse_intens eclipse_intens_with intens_arrays
  simp only [intens_layers_congr c lm tr tr' hf ht, ha, hi]

/-- C9: `emergent_intens` writes only the intensity-grid row of the current angle index.  If
the call of `sol->spectrum` at each wavenumber index `w` of `[0, wnn)` returns `f w` (the call
sees the transit structure as it stands then: row filled below `w`), the call returns `0`;
afterwards `intens_grid[angleIndex][w] = f w` for every such `w`, the other cells of that row
and every other row are unchanged, and the cells were stored once each in increasing `w`. -/
theorem emergent_intens_row (TRPI_MODULATION : Nat) (sol : ray_solution α) (tr : transit α)
    (f : Int → α)
    (hsol : ∀ w : Int, 0 ≤ w → w < tr.wns.n →
      sol.spectrum
        { tr with ds_out := OutRef.emergent_intens
                  intens := fill_row tr.intens tr.angleIndex f w }
        (tr.tau.t w) (tr.wns.v w) (tr.tau.last w) tr.tau.toomuch tr.rads = Except.ok (f w)) :
    ∃ r : EmergentResult α,
      emergent_intens TRPI_MODULATION sol tr = Except.ok r
        ∧ r.ret = 0
        ∧ (∀ w : Int, 0 ≤ w → w < tr.wns.n → r.tr.intens tr.angleIndex w = f w)
        ∧ (∀ w : Int, ¬ (0 ≤ w ∧ w < tr.wns.n)
            → r.tr.intens tr.angleIndex w = tr.intens tr.angleIndex w)
        ∧ (∀ i : Int, i ≠ tr.angleIndex → r.tr.intens i = tr.intens i)
        ∧ r.writes = (List.range tr.wns.n.toNat).map fun j : Nat => (tr.angleIndex, (j : Int)) := by
  have hinv := emergent_loop_inv sol { tr with ds_out := OutRef.emergent_intens }
    tr.angleIndex f tr.wns.n.toNat
    (by
      intro k hk
      have hk' : (k : Int) < tr.wns.n := by omega
      exact hsol (k : Int) (by omega) hk')
    tr.wns.n.toNat (le_refl _)
  unfold emergent_intens
  simp only []
  rw [hinv]
  refine ⟨_, rfl, rfl, ?_, ?_, ?_, rfl⟩
  · intro w hw0 hw
    have h : 0 ≤ w ∧ w < ((tr.wns.n.toNat : Nat) : Int) := by
      constructor
      · exact hw0
      · omega
    simp only [fill_row, Function.update_same, if_pos h]
  · intro w hw
    have h : ¬ (0 ≤ w ∧ w < ((tr.wns.n.toNat : Nat) : Int)) := by
      intro h2
      apply hw
      constructor
      · exact h2.1
      · have := h2.2; omega
    simp only [fill_row, Function.update_same, if_neg h]
  · intro i hi
    simp only [fill_row, Function.update_noteq hi]

/-- Witness of C9: the eclipse ray solution on the three-layer atmosphere (two wavenumbers,
`last = 1`, so three integration points and no fatal exit). -/
theorem emergent_intens_row_witness :
    (∀ w : Int, 0 ≤ w → w < (atm3 : transit ℝ).wns.n →
      (eclipsepath (specPU : PU ℝ) (cgs Real.pi) (Libm.mk Real.exp Real.cos Real.sin)
          (fun _ => 7)).spectrum
        { (atm3 : transit ℝ) with
            ds_out := OutRef.emergent_intens
            intens := fill_row (atm3 : transit ℝ).intens (atm3 : transit ℝ).angleIndex
              (fun w => integrate (specPU : PU ℝ)
                (intens_arrays 1 (cgs Real.pi) (Libm.mk Real.exp Real.cos Real.sin) (fun _ => 7)
                  (atm3 : transit ℝ) (ofList [0, 1, 2]) ((atm3 : transit ℝ).wns.v w) 1 3).tauIV
                (intens_arrays 1 (cgs Real.pi) (Libm.mk Real.exp Real.cos Real.sin) (fun _ => 7)
                  (atm3 : transit ℝ) (ofList [0, 1, 2]) ((atm3 : transit ℝ).wns.v w) 1
                  3).tauInteg
                3 / Real.cos (0 * (cgs Real.pi).DEGREES)) w }
        ((atm3 : transit ℝ).tau.t w) ((atm3 : transit ℝ).wns.v w) ((atm3 : transit ℝ).tau.last w)
        (atm3 : transit ℝ).tau.toomuch (atm3 : transit ℝ).rads
      = Except.ok (integrate (specPU : PU ℝ)
          (intens_arrays 1 (cgs Real.pi) (Libm.mk Real.exp Real.cos Real.sin) (fun _ => 7)
            (atm3 : transit ℝ) (ofList [0, 1, 2]) ((atm3 : transit ℝ).wns.v w) 1 3).tauIV
          (intens_arrays 1 (cgs Real.pi) (Libm.mk Real.exp Real.cos Real.sin) (fun _ => 7)
            (atm3 : transit ℝ) (ofList [0, 1, 2]) ((atm3 : transit ℝ).wns.v w) 1 3).tauInteg
          3 / Real.cos (0 * (cgs Real.pi).DEGREES)))
      ∧ ∃ r : EmergentResult ℝ,
        emergent_intens 4
            (eclipsepath (specPU : PU ℝ) (cgs Real.pi) (Libm.mk Real.exp Real.cos Real.sin)
              (fun _ => 7)) (atm3 : transit ℝ) = Except.ok r
          ∧ r.ret = 0
          ∧ r.writes = [(0, 0), (0, 1)] := by
  have hsol : ∀ w : Int, 0 ≤ w → w < (atm3 : transit ℝ).wns.n →
      (eclipsepath (specPU : PU ℝ) (cgs Real.pi) (Libm.mk Real.exp Real.cos Real.sin)
          (fun _ => 7)).spectrum
        { (atm3 : transit ℝ) with
            ds_out := OutRef.emergent_intens
            intens := fill_row (atm3 : transit ℝ).intens (atm3 : transit ℝ).angleIndex
              (fun w => integrate (specPU : PU ℝ)
                (intens_arrays 1 (cgs Real.pi) (Libm.mk Real.exp Real.cos Real.sin) (fun _ => 7)
                  (atm3 : transit ℝ) (ofList [0, 1, 2]) ((atm3 : transit ℝ).wns.v w) 1 3).tauIV
                (intens_arrays 1 (cgs Real.pi) (Libm.mk Real.exp Real.cos Real.sin) (fun _ => 7)
                  (atm3 : transit ℝ) (ofList [0, 1, 2]) ((atm3 : transit ℝ).wns.v w) 1
                  3).tauInteg
                3 / Real.cos (0 * (cgs Real.pi).DEGREES)) w }
        ((atm3 : transit ℝ).tau.t w) ((atm3 : transit ℝ).wns.v w) ((atm3 : transit ℝ).tau.last w)
        (atm3 : transit ℝ).tau.toomuch (atm3 : transit ℝ).rads
      = Except.ok (integrate (specPU : PU ℝ)
          (intens_arrays 1 (cgs Real.pi) (Libm.mk Real.exp Real.cos Real.sin) (fun _ => 7)
            (atm3 : transit ℝ) (ofList [0, 1, 2]) ((atm3 : transit ℝ).wns.v w) 1 3).tauIV
          (intens_arrays 1 (cgs Real.pi) (Libm.mk Real.exp Real.cos Real.sin) (fun _ => 7)
            (atm3 : transit ℝ) (ofList [0, 1, 2]) ((atm3 : transit ℝ).wns.v w) 1 3).tauInteg
          3 / Real.cos (0 * (cgs Real.pi).DEGREES)) := by
    intro w _ _
    simp only [eclipsepath]
    refine Eq.trans
      (eclipse_intens_congr _ _ _ _ _ (atm3 : transit ℝ) ?_ ?_ ?_ ?_ _ _ _ _ _) ?_
    · rfl
    · rfl
    · rfl
    · rfl
    · have hc : ¬ (intens_count 1 3 < 3) := by simp [intens_count]
      simp only [eclipse_intens, eclipse_intens_with, atm3, hc, if_false]
      simp [intens_count, ofList]
  refine ⟨hsol, ?_⟩
  obtain ⟨r, hr, hret, _, _, _, hw⟩ := emergent_intens_row 4 _ (atm3 : transit ℝ) _ hsol
  refine ⟨r, hr, hret, ?_⟩
  rw [hw]
  simp [atm3, List.range_succ]

end TheoremsDriver

section TheoremsMessagep

/-- Lines 128-132 wipe the whole flag word when the no-debug bit is set: `!MSGP_DBG` is the
logical negation, `0` for a nonzero `MSGP_DBG`. -/
theorem vmperror_flags_nodbg (K : MsgpFlags) (flags : Nat) (hdbg : K.DBG ≠ 0)
    (hnodbg : flags &&& K.NODBG ≠ 0) : vmperror_flags K flags = 0 := by
  have h1 : ¬ (flags &&& K.NOFLAGBITS = K.SYSTEM ∧ flags &&& K.NODBG = 0) := fun h => hnodbg h.2
  have hl : lnot K.DBG = 0 := by simp [lnot, hdbg]
  unfold vmperror_flags
  simp only [if_neg h1]
  rw [if_pos hnodbg, hl]
  exact Nat.and_zero flags

/-- C10 (failing input): once a program name is registered, a call whose flags carry the
no-debug bit `MSGP_NODBG` ends the program, also when the allow-continue bit `MSGP_ALLOWCONT`
is set: line 132, `flags &= !MSGP_DBG`, clears every flag, the allow-continue bit included. -/
theorem vmperror_fcn_nodbg_exits (K : MsgpFlags) (vsnprintf : String → Int)
    (msgp_nowarn msgp_allown : Int) (name : String) (flags : Nat) (file : String) (line : Int)
    (str : String) (hdbg : K.DBG ≠ 0) (hwarn : K.WARNING ≠ 0)
    (hnodbg : flags &&& K.NODBG ≠ 0) :
    vmperror_fcn K vsnprintf msgp_nowarn msgp_allown (some name) flags file line str
      = Outcome.exited := by
  unfold vmperror_fcn
  simp only [vmperror_flags_nodbg K flags hdbg hnodbg, Nat.zero_and]
  have hw : ¬ (0 = K.WARNING) := fun h => hwarn h.symm
  simp [hw]

/-- Witness of C10: `MSGP_USER | MSGP_ALLOWCONT | MSGP_NODBG` (the allow-continue bit is set)
ends the program. -/
theorem vmperror_fcn_nodbg_exits_witness :
    msgp_layout.DBG ≠ 0 ∧ msgp_layout.WARNING ≠ 0
      ∧ (msgp_layout.USER ||| msgp_layout.ALLOWCONT ||| msgp_layout.NODBG)
          &&& msgp_layout.ALLOWCONT ≠ 0
      ∧ (msgp_layout.USER ||| msgp_layout.ALLOWCONT ||| msgp_layout.NODBG)
          &&& msgp_layout.NODBG ≠ 0
      ∧ vmperror_fcn msgp_layout (fun m => m.length) 0 0 (some "transit")
          (msgp_layout.USER ||| msgp_layout.ALLOWCONT ||| msgp_layout.NODBG)
          "readlineinfo.c" 120 "line too long" = Outcome.exited :=
  ⟨by decide, by decide, by decide, by decide,
   vmperror_fcn_nodbg_exits msgp_layout (fun m => m.length) 0 0 "transit"
     (msgp_layout.USER ||| msgp_layout.ALLOWCONT ||| msgp_layout.NODBG)
     "readlineinfo.c" 120 "line too long" (by decide) (by decide) (by decide)⟩

/-- With the no-debug bit clear the documented behaviour holds: the allow-continue bit makes
`vmperror_fcn` return to its caller (for flag layouts whose debug bit is apart from the
no-debug bit). -/
theorem vmperror_fcn_allowcont_returns (K : MsgpFlags) (vsnprintf : String → Int)
    (msgp_allown : Int) (name : String) (flags : Nat) (file : String) (line : Int)
    (str : String) (hsep : K.DBG &&& K.NODBG = 0) (hnodbg : flags &&& K.NODBG = 0)
    (hcont : flags &&& K.ALLOWCONT ≠ 0) :
    ∃ ret, vmperror_fcn K vsnprintf 0 msgp_allown (some name) flags file line str
      = Outcome.returned ret (msgp_allown + 1) := by
  have hor : (flags ||| K.DBG) &&& K.NODBG = 0 := by
    rw [Nat.and_distrib_right, hnodbg, hsep]; rfl
  have hor2 : (flags ||| K.DBG) &&& K.ALLOWCONT ≠ 0 := by
    rw [Nat.and_distrib_right]
    intro h
    apply hcont
    apply Nat.eq_of_testBit_eq
    intro i
    have hi := congrArg (fun n => Nat.testBit n i) h
    simp only [Nat.testBit_or, Nat.zero_testBit, Bool.or_eq_false_iff] at hi
    rw [hi.1, Nat.zero_testBit]
  have hf : vmperror_flags K flags &&& K.ALLOWCONT ≠ 0 := by
    unfold vmperror_flags
    by_cases h1 : flags &&& K.NOFLAGBITS = K.SYSTEM ∧ flags &&& K.NODBG = 0
    · simp only [if_pos h1]
      rw [if_neg (by rw [hor]; simp)]
      exact hor2
    · simp only [if_neg h1]
      rw [if_neg (by rw [hnodbg]; simp)]
      exact hcont
  unfold vmperror_fcn
  simp [hf]

/-- The second half of the documented behaviour holds: a call without the allow-continue bit
that is not a warning ends the program (for flag layouts whose debug bit is apart from the
allow-continue bit and from the kind bits). -/
theorem vmperror_fcn_exits_without_allowcont (K : MsgpFlags) (vsnprintf : String → Int)
    (msgp_nowarn msgp_allown : Int) (name : String) (flags : Nat) (file : String) (line : Int)
    (str : String) (hdbg : K.DBG ≠ 0) (hwarn : K.WARNING ≠ 0)
    (hsepA : K.DBG &&& K.ALLOWCONT = 0) (hsepK : K.DBG &&& K.NOFLAGBITS = 0)
    (hcont : flags &&& K.ALLOWCONT = 0) (hkind : flags &&& K.NOFLAGBITS ≠ K.WARNING) :
    vmperror_fcn K vsnprintf msgp_nowarn msgp_allown (some name) flags file line str
      = Outcome.exited := by
  have hf : vmperror_flags K flags &&& K.ALLOWCONT = 0
      ∧ vmperror_flags K flags &&& K.NOFLAGBITS ≠ K.WARNING := by
    have hl : lnot K.DBG = 0 := by simp [lnot, hdbg]
    have hw0 : (0 : Nat) ≠ K.WARNING := fun h => hwarn h.symm
    unfold vmperror_flags
    by_cases h1 : flags &&& K.NOFLAGBITS = K.SYSTEM ∧ flags &&& K.NODBG = 0
    · simp only [if_pos h1]
      by_cases h2 : (flags ||| K.DBG) &&& K.NODBG ≠ 0
      · rw [if_pos h2, hl, Nat.and_zero, Nat.zero_and, Nat.zero_and]
        exact ⟨rfl, hw0⟩
      · rw [if_neg h2, Nat.and_distrib_right, Nat.and_distrib_right, hcont, hsepA, hsepK]
        exact ⟨rfl, by simpa using hkind⟩
    · simp only [if_neg h1]
      by_cases h2 : flags &&& K.NODBG ≠ 0
      · rw [if_pos h2, hl, Nat.and_zero, Nat.zero_and, Nat.zero_and]
        exact ⟨rfl, hw0⟩
      · rw [if_neg h2]
        exact ⟨hcont, hkind⟩
  unfold vmperror_fcn
  simp [hf.1, hf.2]

end TheoremsMessagep

section TheoremsPadding

/-- Integrand and abscissa of `eclipse_intens` on the padded layers `last < i < rnn`. -/
theorem intens_arrays_pad {α : Type} [Field α] (step : α) (c : Consts α) (lm : Libm α)
    (junk : Arr α) (tr : transit α) (tau : Arr α) (w : α) (last rnn : Int) (i : Int)
    (hl : 0 ≤ last) (hi : last < i) (hin : i < rnn) :
    (intens_arrays step c lm junk tr tau w last rnn).tauInteg i = 0
      ∧ (intens_arrays step c lm junk tr tau w last rnn).tauIV i
        = tau last + ((i - last : Int) : α) * step := by
  have hk : ((last + 1).toNat : Int) = last + 1 := Int.toNat_of_nonneg (by omega)
  have hk2 : (((rnn - ((last + 1).toNat : Int)).toNat : Nat) : Int) = rnn - (last + 1) := by
    rw [hk]; exact Int.toNat_of_nonneg (by omega)
  have hpad : ((last + 1).toNat : Int) ≤ i
      ∧ i < ((last + 1).toNat : Int) + (((rnn - ((last + 1).toNat : Int)).toNat : Nat) : Int) := by
    rw [hk2, hk]; constructor <;> omega
  have hlay : 0 ≤ ((last + 1).toNat : Int) - 1
      ∧ ((last + 1).toNat : Int) - 1 < ((last + 1).toNat : Int) := by
    rw [hk]; constructor <;> omega
  unfold intens_arrays
  simp only []
  constructor
  · rw [(intens_pad_apply step _ _ _ i).2.1, if_pos hpad]
  · rw [(intens_pad_apply step _ _ _ i).2.2, if_pos hpad,
      (intens_layers_apply c lm tr tau w rnn _ _ _ _).1, if_pos hlay, hk]
    have e1 : last + 1 - 1 = last := by omega
    have e2 : i - (last + 1) + 1 = i - last := by omega
    rw [e1, e2]

/-- The Simpson Integrator of the specification on three points. -/
theorem integrate_spec_three {α : Type} [LinearOrderedField α] (x y : Arr α) :
    integrate specPU x y 3
      = ((x 1 - x 0) + (x 2 - x 1)) / 6
          * (y 0 * (2 - (x 2 - x 1) / (x 1 - x 0))
              + y 1 * (((x 1 - x 0) + (x 2 - x 1)) ^ 2 / ((x 1 - x 0) * (x 2 - x 1)))
              + y 2 * (2 - 1 / ((x 2 - x 1) / (x 1 - x 0)))) := by
  simp [integrate, specPU, spec_simps, spec_geth, spec_makeh]

/-- The three-point rule of the specification integrates a linear integrand exactly on
unequal intervals (the defining property the specification asks of its integrator). -/
theorem integrate_spec_three_linear {α : Type} [LinearOrderedField α] (x y : Arr α) (a b : α)
    (h01 : x 0 < x 1) (h12 : x 1 < x 2) (hy0 : y 0 = a * x 0 + b) (hy1 : y 1 = a * x 1 + b)
    (hy2 : y 2 = a * x 2 + b) :
    integrate specPU x y 3 = a * (x 2 ^ 2 - x 0 ^ 2) / 2 + b * (x 2 - x 0) := by
  have d0 : x 1 - x 0 ≠ 0 := ne_of_gt (sub_pos.mpr h01)
  have d1 : x 2 - x 1 ≠ 0 := ne_of_gt (sub_pos.mpr h12)
  rw [integrate_spec_three, hy0, hy1, hy2]
  field_simp
  ring

/-- Value of `eclipse_intens` (padding increment `step`) on a three-layer grid with
`last = 1`: two real layers and one padded point. -/
theorem eclipse_intens_with_three {α : Type} [LinearOrderedField α] (step : α) (c : Consts α)
    (lm : Libm α) (junk : Arr α) (tr : transit α) (tau : Arr α) (w : α) (toomuch : α)
    (rad : prop_samp α) (hn : rad.n = 3) :
    eclipse_intens_with step specPU c lm junk tr tau w 1 toomuch rad
      = Except.ok
          (((tau 1 - tau 0) + step) / 6
            * (planck_spec c lm tr.wns.fct w (tr.atm_t 2)
                  * lm.exp (-tau 0 / lm.cos (tr.angles tr.angleIndex * c.DEGREES))
                  * (2 - step / (tau 1 - tau 0))
                + planck_spec c lm tr.wns.fct w (tr.atm_t 1)
                  * lm.exp (-tau 1 / lm.cos (tr.angles tr.angleIndex * c.DEGREES))
                  * (((tau 1 - tau 0) + step) ^ 2 / ((tau 1 - tau 0) * step)))
            / lm.cos (tr.angles tr.angleIndex * c.DEGREES)) := by
  have hc3 : intens_count 1 3 = 3 := by simp [intens_count]
  have hc : ¬ (intens_count 1 3 < 3) := by simp [intens_count]
  have l0 := intens_arrays_layer step c lm junk tr tau w 1 3 0 (by norm_num) (by norm_num)
  have l1 := intens_arrays_layer step c lm junk tr tau w 1 3 1 (by norm_num) (by norm_num)
  have l2 := intens_arrays_pad step c lm junk tr tau w 1 3 2 (by norm_num) (by norm_num)
    (by norm_num)
  unfold eclipse_intens_with
  simp only [hn, hc, if_false]
  rw [hc3, integrate_spec_three, l0.1, l0.2, l1.1, l1.2, l2.1, l2.2]
  norm_num

/-- The Planck function is positive for positive constants, wavenumber and temperature. -/
theorem planck_spec_pos (c : Consts ℝ) (wfct w T : ℝ) (hH : 0 < c.H) (hLS : 0 < c.LS)
    (hKB : 0 < c.KB) (hf : 0 < wfct) (hw : 0 < w) (hT : 0 < T) :
    0 < planck_spec c (Libm.mk Real.exp Real.cos Real.sin) wfct w T := by
  unfold planck_spec
  apply div_pos
  · positivity
  · have : 0 < c.H * w * wfct * c.LS / (c.KB * T) := by positivity
    have := Real.one_lt_exp_iff.mpr this
    simp only
    linarith

/-- Value of `eclipse_intens` with padding increment `s` on the three-layer atmosphere at
wavenumber `1000`, optical depths `[0, 1, 2]`, `last = 1`, viewing angle `0`. -/
theorem eclipse_intens_with_atm3 (s : ℝ) :
    eclipse_intens_with s (specPU : PU ℝ) (cgs Real.pi) (Libm.mk Real.exp Real.cos Real.sin)
        (fun _ => 7) (atm3 : transit ℝ) (ofList [0, 1, 2]) 1000 1 10 (atm3 : transit ℝ).rads
      = Except.ok
          ((1 + s) / 6
            * (planck_spec (cgs Real.pi) (Libm.mk Real.exp Real.cos Real.sin) 1 1000 1000
                  * (2 - s)
                + planck_spec (cgs Real.pi) (Libm.mk Real.exp Real.cos Real.sin) 1 1000 1200
                  * Real.exp (-1) * ((1 + s) ^ 2 / s))) := by
  rw [eclipse_intens_with_three s _ _ _ _ _ _ _ _ rfl]
  have ha : (atm3 : transit ℝ).angles (atm3 : transit ℝ).angleIndex = 0 := by
    simp [atm3, ofList]
  have ht0 : (ofList [0, 1, 2] : Arr ℝ) 0 = 0 := by simp [ofList]
  have ht1 : (ofList [0, 1, 2] : Arr ℝ) 1 = 1 := by simp [ofList]
  have hT2 : (atm3 : transit ℝ).atm_t 2 = 1000 := by simp [atm3, ofList]
  have hT1 : (atm3 : transit ℝ).atm_t 1 = 1200 := by simp [atm3, ofList]
  have hf : (atm3 : transit ℝ).wns.fct = 1 := rfl
  rw [ha, ht0, ht1, hT2, hT1, hf]
  simp only [zero_mul, Real.cos_zero, neg_zero, zero_div, Real.exp_zero, sub_zero, div_one,
    mul_one, one_mul]

/-- C8 (failing input): on the three-layer atmosphere with optical depths `[0, 1, 2]`,
`last = 1`, wavenumber `1000`, viewing angle `0`, the padded point enters the integral:
with the increment `1` of the source `eclipse_intens` returns `(B0 + 4*B1*exp(-1))/3`, with
the increment `1/8` it would return `(135*B0 + 729*B1*exp(-1))/384`, and the two differ
(`B0`, `B1` are the Planck values at the temperatures `1000` and `1200` of the layers `0`
and `1`).  The returned intensity depends on the synthetic abscissa step. -/
theorem eclipse_intens_pad_step_matters :
    eclipse_intens (specPU : PU ℝ) (cgs Real.pi) (Libm.mk Real.exp Real.cos Real.sin)
        (fun _ => 7) (atm3 : transit ℝ) (ofList [0, 1, 2]) 1000 1 10 (atm3 : transit ℝ).rads
      = Except.ok
          ((planck_spec (cgs Real.pi) (Libm.mk Real.exp Real.cos Real.sin) 1 1000 1000
              + 4 * (planck_spec (cgs Real.pi) (Libm.mk Real.exp Real.cos Real.sin) 1 1000 1200
                  * Real.exp (-1))) / 3)
    ∧ eclipse_intens_with (1 / 8) (specPU : PU ℝ) (cgs Real.pi)
        (Libm.mk Real.exp Real.cos Real.sin) (fun _ => 7) (atm3 : transit ℝ) (ofList [0, 1, 2])
        1000 1 10 (atm3 : transit ℝ).rads
      = Except.ok
          ((135 * planck_spec (cgs Real.pi) (Libm.mk Real.exp Real.cos Real.sin) 1 1000 1000
              + 729 * (planck_spec (cgs Real.pi) (Libm.mk Real.exp Real.cos Real.sin) 1 1000 1200
                  * Real.exp (-1))) / 384)
    ∧ eclipse_intens (specPU : PU ℝ) (cgs Real.pi) (Libm.mk Real.exp Real.cos Real.sin)
        (fun _ => 7) (atm3 : transit ℝ) (ofList [0, 1, 2]) 1000 1 10 (atm3 : transit ℝ).rads
      ≠ eclipse_intens_with (1 / 8) (specPU : PU ℝ) (cgs Real.pi)
        (Libm.mk Real.exp Real.cos Real.sin) (fun _ => 7) (atm3 : transit ℝ) (ofList [0, 1, 2])
        1000 1 10 (atm3 : transit ℝ).rads := by
  have hH : 0 < (cgs Real.pi).H := by simp only [cgs]; norm_num
  have hLS : 0 < (cgs Real.pi).LS := by simp only [cgs]; norm_num
  have hKB : 0 < (cgs Real.pi).KB := by simp only [cgs]; norm_num
  have hP0 := planck_spec_pos (cgs Real.pi) 1 1000 1000 hH hLS hKB (by norm_num) (by norm_num)
    (by norm_num)
  have hP1 := planck_spec_pos (cgs Real.pi) 1 1000 1200 hH hLS hKB (by norm_num) (by norm_num)
    (by norm_num)
  have hQ : 0 < planck_spec (cgs Real.pi) (Libm.mk Real.exp Real.cos Real.sin) 1 1000 1200
      * Real.exp (-1) := mul_pos hP1 (Real.exp_pos _)
  have e1 : eclipse_intens (specPU : PU ℝ) (cgs Real.pi) (Libm.mk Real.exp Real.cos Real.sin)
        (fun _ => 7) (atm3 : transit ℝ) (ofList [0, 1, 2]) 1000 1 10 (atm3 : transit ℝ).rads
      = Except.ok
          ((planck_spec (cgs Real.pi) (Libm.mk Real.exp Real.cos Real.sin) 1 1000 1000
              + 4 * (planck_spec (cgs Real.pi) (Libm.mk Real.exp Real.cos Real.sin) 1 1000 1200
                  * Real.exp (-1))) / 3) := by
    unfold eclipse_intens
    rw [eclipse_intens_with_atm3 1]
    congr 1
    ring
  have e2 : eclipse_intens_with (1 / 8) (specPU : PU ℝ) (cgs Real.pi)
        (Libm.mk Real.exp Real.cos Real.sin) (fun _ => 7) (atm3 : transit ℝ) (ofList [0, 1, 2])
        1000 1 10 (atm3 : transit ℝ).rads
      = Except.ok
          ((135 * planck_spec (cgs Real.pi) (Libm.mk Real.exp Real.cos Real.sin) 1 1000 1000
              + 729 * (planck_spec (cgs Real.pi) (Libm.mk Real.exp Real.cos Real.sin) 1 1000 1200
                  * Real.exp (-1))) / 384) := by
    rw [eclipse_intens_with_atm3 (1 / 8)]
    congr 1
    ring
  refine ⟨e1, e2, ?_⟩
  rw [e1, e2]
  intro h
  have h' := Except.ok.inj h
  linarith

end TheoremsPadding

section TheoremsPath

variable {α : Type} [Field α]

/-- The path loop stores exactly the indices `1 .. k`, in increasing order. -/
theorem path_loop_writes_eq (k : Nat) (l : List Int) :
    path_loop_writes k l = l ++ (List.range k).map fun j : Nat => (j : Int) + 1 := by
  induction k with
  | zero => simp [path_loop_writes]
  | succ k ih =>
    simp [path_loop_writes, ih, List.range_succ, List.append_assoc]

/-- The log of stores agrees with the loop: the loop ends without fault exactly when every
logged index is inside the declared extent. -/
theorem path_loop_ok_iff (slen : Int) (rad : Arr α) (k : Nat) (s : Arr α) :
    (∃ s1 : Arr α, path_loop slen rad k s = Except.ok s1)
      ↔ ∀ i ∈ path_loop_writes k [], 0 ≤ i ∧ i < slen := by
  induction k with
  | zero => simp [path_loop, path_loop_writes]
  | succ k ih =>
    simp only [path_loop_writes, List.mem_append, List.mem_singleton]
    constructor
    · rintro ⟨s2, h2⟩
      cases hp : path_loop slen rad k s with
      | error f => simp [path_loop, hp] at h2
      | ok s1 =>
        have hprev := ih.mp ⟨s1, hp⟩
        simp only [path_loop, hp, store_at] at h2
        by_cases hb : 0 ≤ ((k : Int) + 1) ∧ ((k : Int) + 1) < slen
        · intro i hi
          rcases hi with hi | hi
          · exact hprev i hi
          · rw [hi]; exact hb
        · rw [if_neg hb] at h2
          cases h2
    · intro h
      obtain ⟨s1, hp⟩ := ih.mpr (fun i hi => h i (Or.inl hi))
      have hb : 0 ≤ ((k : Int) + 1) ∧ ((k : Int) + 1) < slen := h _ (Or.inr rfl)
      exact ⟨Function.update s1 ((k : Int) + 1)
        (s1 ((k : Int) + 1 - 1) + (rad ((k : Int) + 1) - rad ((k : Int) + 1 - 1))),
        by simp only [path_loop, hp, store_at, if_pos hb]⟩

/-- The log of stores agrees with lines 133-136: they end without fault exactly when every
logged index is inside the declared extent. -/
theorem eclipsetau_path_ok_iff (junk rad : Arr α) (slen nrad : Int) :
    (∃ s : Arr α, eclipsetau_path junk rad slen nrad = Except.ok s)
      ↔ ∀ i ∈ eclipsetau_path_writes nrad, 0 ≤ i ∧ i < slen := by
  have hmem : ∀ i : Int, i ∈ eclipsetau_path_writes nrad
      ↔ i = 0 ∨ i ∈ path_loop_writes (nrad - 1).toNat [] := by
    intro i
    unfold eclipsetau_path_writes
    rw [path_loop_writes_eq, path_loop_writes_eq]
    simp
  by_cases hb : (0 : Int) ≤ 0 ∧ (0 : Int) < slen
  · have hiff := path_loop_ok_iff slen rad (nrad - 1).toNat (Function.update junk 0 0)
    simp only [eclipsetau_path, store_at, if_pos hb]
    rw [hiff]
    constructor
    · intro h i hi
      rcases (hmem i).mp hi with h0 | h1
      · rw [h0]; exact hb
      · exact h i h1
    · intro h i hi
      exact h i ((hmem i).mpr (Or.inr hi))
  · simp only [eclipsetau_path, store_at, if_neg hb]
    constructor
    · rintro ⟨s, hs⟩
      cases hs
    · intro h
      exact absurd (h 0 ((hmem 0).mpr (Or.inl rfl))) hb

/-- Indices stored into `s` by `eclipsetau`: `0 .. nrad-1` for the point count `nrad >= 1`. -/
theorem mem_eclipsetau_path_writes (nrad : Int) (hn : 1 ≤ nrad) (i : Int) :
    i ∈ eclipsetau_path_writes nrad ↔ 0 ≤ i ∧ i < nrad := by
  unfold eclipsetau_path_writes
  rw [path_loop_writes_eq]
  simp only [List.mem_append, List.mem_singleton, List.mem_map, List.mem_range]
  constructor
  · rintro (h | ⟨j, hj, rfl⟩)
    · omega
    · omega
  · intro h
    by_cases h0 : i = 0
    · exact Or.inl h0
    · refine Or.inr ⟨(i - 1).toNat, ?_, ?_⟩
      · omega
      · omega

/-- In the general case (three or more layers remain) every store into `s` is inside the
declared extent. -/
theorem eclipsetau_s_general_in_bounds (pu : PU α) (junk : Arr α) (tr : transit α) (height : α)
    (ex : Arr α)
    (hle : pu.binsearchapprox tr.rads.v height 0 (tr.rads.n - 1) ≤ tr.rads.n - 3) :
    ∃ p : PathArray α, eclipsetau_s pu junk tr height ex = some p
      ∧ p.declared = tr.rads.n - pu.binsearchapprox tr.rads.v height 0 (tr.rads.n - 1)
      ∧ ∀ i ∈ p.writes, 0 ≤ i ∧ i < p.declared := by
  generalize hrs : pu.binsearchapprox tr.rads.v height 0 (tr.rads.n - 1) = rs at hle
  have h1 : ¬ (rs = tr.rads.n - 1) := by omega
  have h2 : ¬ (tr.rads.n - rs = 2) := by omega
  refine ⟨_, by simp only [eclipsetau_s, hrs, if_neg h1]; rfl, ?_, ?_⟩
  · simp [eclipsetau_prep, h2]
  · intro i hi
    simp only [eclipsetau_prep, h2, if_false] at hi ⊢
    exact (mem_eclipsetau_path_writes _ (by omega) i).mp hi

/-- C12 (failing input): when exactly two radius points remain (`rs = n-2`, grid of size
`n >= 3`) the array `s` is declared with length `2`, the point count is then incremented to
`3`, and the loop stores `s[0]`, `s[1]`, `s[2]`: the store at index `2` is not below the
declared length. -/
theorem eclipsetau_s_two_points_overrun (pu : PU α) (junk : Arr α) (tr : transit α)
    (height : α) (ex : Arr α) (hn : 3 ≤ tr.rads.n)
    (hrs : pu.binsearchapprox tr.rads.v height 0 (tr.rads.n - 1) = tr.rads.n - 2) :
    ∃ p : PathArray α, eclipsetau_s pu junk tr height ex = some p
      ∧ p.declared = 2 ∧ p.writes = [0, 1, 2] ∧ 2 ∈ p.writes ∧ ¬ (2 < p.declared) := by
  have h1 : ¬ (tr.rads.n - 2 = tr.rads.n - 1) := by omega
  have h2 : tr.rads.n - (tr.rads.n - 2) = 2 := by omega
  refine ⟨_, by simp only [eclipsetau_s, hrs, if_neg h1]; rfl, ?_, ?_, ?_, ?_⟩
  · simp [eclipsetau_prep, h2]
  · simp [eclipsetau_prep, h2, eclipsetau_path_writes, path_loop_writes]
  · simp [eclipsetau_prep, h2, eclipsetau_path_writes, path_loop_writes]
  · simp [eclipsetau_prep, h2]

/-- Witness of C12: grid `[1, 3/2, 2]`, height `3/2` (located at `rs = 1 = n-2`, below the top
layer). -/
theorem eclipsetau_s_two_points_overrun_witness :
    3 ≤ (atm3 : transit ℚ).rads.n
      ∧ (specPU : PU ℚ).binsearchapprox (atm3 : transit ℚ).rads.v (3 / 2) 0
          ((atm3 : transit ℚ).rads.n - 1) = (atm3 : transit ℚ).rads.n - 2
      ∧ ∃ p : PathArray ℚ, eclipsetau_s specPU (fun _ => 7) (atm3 : transit ℚ) (3 / 2) ex3 = some p
          ∧ p.declared = 2 ∧ p.writes = [0, 1, 2] ∧ 2 ∈ p.writes ∧ ¬ (2 < p.declared) :=
  ⟨by simp [atm3],
   by simp [specPU, spec_binsearchapprox, bisect, atm3, ofList]; norm_num,
   eclipsetau_s_two_points_overrun specPU (fun _ => 7) (atm3 : transit ℚ) (3 / 2) ex3
     (by simp [atm3])
     (by simp [specPU, spec_binsearchapprox, bisect, atm3, ofList]; norm_num)⟩

end TheoremsPath

section TheoremsPathLength

variable {α : Type} [Field α]

/-- The radii the two-point branch hands on are the synthesized `[r0, (r0+r1)/2, r1]`: were the
store `s[2]` inside the array (an extent of `3` in place of the declared `2`), the path would be
`[0, d/2, d]` with `d = rad[rs+1] - rad[rs]`. -/
theorem two_points_path_with_extent_three (pu : PU α) (junk : Arr α) (tr : transit α)
    (rs : Int) (ex : Arr α) (h2 : tr.rads.n - rs = 2) (htwo : (2 : α) ≠ 0) :
    ∃ s : Arr α, eclipsetau_path junk (eclipsetau_prep pu junk tr rs ex).radP 3 3 = Except.ok s
      ∧ s 0 = 0 ∧ s 1 = (tr.rads.v (rs + 1) - tr.rads.v rs) / 2
      ∧ s 2 = tr.rads.v (rs + 1) - tr.rads.v rs := by
  obtain ⟨s, hs, hval⟩ := eclipsetau_path_apply junk (eclipsetau_prep pu junk tr rs ex).radP 3 3
    (by norm_num) (le_refl _)
  refine ⟨s, hs, ?_, ?_, ?_⟩
  · rw [hval 0 (le_refl _) (by norm_num)]
    ring
  · rw [hval 1 (by norm_num) (by norm_num)]
    simp only [eclipsetau_prep, h2, if_true, update_021, three_apply]
    norm_num
    field_simp
    ring
  · rw [hval 2 (by norm_num) (by norm_num)]
    simp only [eclipsetau_prep, h2, if_true, update_021, three_apply]
    norm_num

/-- C15 (failing input in the two-point case): for a height located at `rs` with
`0 <= rs <= n-2`.  When three or more layers remain, the abscissas are pure radius differences:
the array `s` is built without fault, `s[0] = 0`, `s[i] = rad[rs+i] - rad[rs]` for every `i`
below the point count `n - rs`, and `s` is strictly increasing there whenever the radius grid
is.  In the two-point case `s` is declared with two elements and never holds `[0, d/2, d]`:
the store of the third abscissa, `s[2]`, is outside the array. -/
theorem eclipsetau_s_radius_differences {β : Type} [LinearOrderedField β] (pu : PU β)
    (junk : Arr β) (tr : transit β) (height : β) (ex : Arr β)
    (hr0 : 0 ≤ pu.binsearchapprox tr.rads.v height 0 (tr.rads.n - 1))
    (hr1 : pu.binsearchapprox tr.rads.v height 0 (tr.rads.n - 1) ≤ tr.rads.n - 2) :
    ∃ p : PathArray β, eclipsetau_s pu junk tr height ex = some p
      ∧ (if tr.rads.n - pu.binsearchapprox tr.rads.v height 0 (tr.rads.n - 1) = 2 then
          p.declared = 2 ∧ p.s = Except.error (Fault.storeOutside 2 2)
         else
          ∃ s : Arr β, p.s = Except.ok s
            ∧ s 0 = 0
            ∧ (∀ i : Int, 0 ≤ i →
                i < tr.rads.n - pu.binsearchapprox tr.rads.v height 0 (tr.rads.n - 1) →
                s i = tr.rads.v (pu.binsearchapprox tr.rads.v height 0 (tr.rads.n - 1) + i)
                      - tr.rads.v (pu.binsearchapprox tr.rads.v height 0 (tr.rads.n - 1)))
            ∧ ((∀ i j : Int, 0 ≤ i → i < j → j < tr.rads.n → tr.rads.v i < tr.rads.v j) →
                ∀ i j : Int, 0 ≤ i → i < j →
                  j < tr.rads.n - pu.binsearchapprox tr.rads.v height 0 (tr.rads.n - 1) →
                  s i < s j)) := by
  generalize hrs : pu.binsearchapprox tr.rads.v height 0 (tr.rads.n - 1) = rs at hr0 hr1
  have h1 : ¬ (rs = tr.rads.n - 1) := by omega
  refine ⟨_, by simp only [eclipsetau_s, hrs, if_neg h1]; rfl, ?_⟩
  by_cases h2 : tr.rads.n - rs = 2
  · rw [if_pos h2]
    refine ⟨by simp [eclipsetau_prep, h2], ?_⟩
    simp only [eclipsetau_prep, h2, if_true]
    norm_num
    rw [eclipsetau_path_two_points]
  · rw [if_neg h2]
    obtain ⟨s, hs, hval⟩ := eclipsetau_path_apply junk (shift tr.rads.v rs) (tr.rads.n - rs)
      (tr.rads.n - rs) (by omega) (le_refl _)
    refine ⟨s, by simp only [eclipsetau_prep, if_neg h2, hs], ?_, ?_, ?_⟩
    · rw [hval 0 (le_refl _) (by omega)]
      ring
    · intro i hi0 hi
      rw [hval i hi0 hi]
      simp [shift]
    · intro hinc i j hi0 hij hj
      rw [hval i hi0 (by omega), hval j (by omega) hj]
      simp only [shift]
      have := hinc (rs + i) (rs + j) (by omega) (by omega) (by omega)
      linarith

/-- The index search of the specification puts the height `3/2` at `rs = 1 = n-2` of the grid
`[1, 3/2, 2]`. -/
theorem atm3_search_middle :
    (specPU : PU ℚ).binsearchapprox (atm3 : transit ℚ).rads.v (3 / 2) 0 ((atm3 : transit ℚ).rads.n - 1) = 1 := by
  simp [specPU, spec_binsearchapprox, bisect, atm3, ofList]; norm_num

/-- The index search of the specification puts the height `1` at `rs = 0` of the grid
`[1, 3/2, 2]`. -/
theorem atm3_search_bottom :
    (specPU : PU ℚ).binsearchapprox (atm3 : transit ℚ).rads.v 1 0 ((atm3 : transit ℚ).rads.n - 1) = 0 := by
  simp [specPU, spec_binsearchapprox, bisect, atm3, ofList]; norm_num

/-- Witness of C15: grid `[1, 3/2, 2]`.  At the height `3/2` (located at `rs = 1 = n-2`, the
two-point case) `s` has two elements and the store `s[2]` is outside it; at the height `1`
(located at `rs = 0`, three layers remain) `s = [0, 1/2, 1]`. -/
theorem eclipsetau_s_radius_differences_witness :
    (0 ≤ (specPU : PU ℚ).binsearchapprox (atm3 : transit ℚ).rads.v (3 / 2) 0 ((atm3 : transit ℚ).rads.n - 1)
      ∧ (specPU : PU ℚ).binsearchapprox (atm3 : transit ℚ).rads.v (3 / 2) 0 ((atm3 : transit ℚ).rads.n - 1) ≤ (atm3 : transit ℚ).rads.n - 2
      ∧ ∃ p : PathArray ℚ, eclipsetau_s specPU (fun _ => 7) (atm3 : transit ℚ) (3 / 2) ex3 = some p
          ∧ p.declared = 2 ∧ p.s = Except.error (Fault.storeOutside 2 2))
    ∧ (0 ≤ (specPU : PU ℚ).binsearchapprox (atm3 : transit ℚ).rads.v 1 0 ((atm3 : transit ℚ).rads.n - 1)
      ∧ (specPU : PU ℚ).binsearchapprox (atm3 : transit ℚ).rads.v 1 0 ((atm3 : transit ℚ).rads.n - 1) ≤ (atm3 : transit ℚ).rads.n - 2
      ∧ (∀ i j : Int, 0 ≤ i → i < j → j < (atm3 : transit ℚ).rads.n → (atm3 : transit ℚ).rads.v i < (atm3 : transit ℚ).rads.v j)
      ∧ ∃ p : PathArray ℚ, eclipsetau_s specPU (fun _ => 7) (atm3 : transit ℚ) 1 ex3 = some p
          ∧ ∃ s : Arr ℚ, p.s = Except.ok s ∧ s 0 = 0 ∧ s 1 = 1 / 2 ∧ s 2 = 1
            ∧ ∀ i j : Int, 0 ≤ i → i < j → j < 3 → s i < s j) := by
  have hn : (atm3 : transit ℚ).rads.n = 3 := rfl
  constructor
  · obtain ⟨p, hp, hcase⟩ :=
      eclipsetau_s_radius_differences specPU (fun _ => 7) (atm3 : transit ℚ) (3 / 2) ex3
        (by rw [atm3_search_middle]; norm_num) (by rw [atm3_search_middle, hn]; norm_num)
    rw [atm3_search_middle, hn, if_pos (by norm_num)] at hcase
    exact ⟨by rw [atm3_search_middle]; norm_num, by rw [atm3_search_middle, hn]; norm_num,
      p, hp, hcase⟩
  · obtain ⟨p, hp, hcase⟩ :=
      eclipsetau_s_radius_differences specPU (fun _ => 7) (atm3 : transit ℚ) 1 ex3
        (by rw [atm3_search_bottom]) (by rw [atm3_search_bottom, hn]; norm_num)
    rw [atm3_search_bottom, hn, if_neg (by norm_num)] at hcase
    obtain ⟨s, hs, h0, hform, hmono⟩ := hcase
    refine ⟨by rw [atm3_search_bottom], by rw [atm3_search_bottom, hn]; norm_num,
      atm3_increasing, p, hp, s, hs, h0, ?_, ?_, ?_⟩
    · rw [hform 1 (by norm_num) (by norm_num)]
      simp [atm3, ofList]
      norm_num
    · rw [hform 2 (by norm_num) (by norm_num)]
      simp [atm3, ofList]
      norm_num
    · intro i j hi0 hij hj
      exact hmono (by rw [← hn]; exact atm3_increasing) i j hi0 hij (by omega)

end TheoremsPathLength

section TheoremsPadAbscissa

variable {β : Type} [LinearOrderedField β]

/-- The padded abscissa of `eclipse_intens` is strictly increasing when `tau[0..last]` is. -/
theorem intens_arrays_tauIV_lt (c : Consts β) (lm : Libm β) (junk : Arr β) (tr : transit β)
    (tau : Arr β) (w : β) (last rnn : Int) (hl : 0 ≤ last)
    (hinc : ∀ i j : Int, 0 ≤ i → i < j → j ≤ last → tau i < tau j)
    (i j : Int) (hi0 : 0 ≤ i) (hij : i < j) (hj : j < rnn) :
    (intens_arrays 1 c lm junk tr tau w last rnn).tauIV i
      < (intens_arrays 1 c lm junk tr tau w last rnn).tauIV j := by
  have hle : ∀ k : Int, 0 ≤ k → k ≤ last → tau k ≤ tau last := by
    intro k hk0 hk
    by_cases hkl : k = last
    · rw [hkl]
    · exact le_of_lt (hinc k last hk0 (by omega) (le_refl _))
  by_cases hjl : j ≤ last
  · rw [(intens_arrays_layer 1 c lm junk tr tau w last rnn i hi0 (by omega)).2,
      (intens_arrays_layer 1 c lm junk tr tau w last rnn j (by omega) hjl).2]
    exact hinc i j hi0 hij hjl
  · have hjpad := (intens_arrays_pad 1 c lm junk tr tau w last rnn j hl (by omega) hj).2
    have hjpos : (0 : β) < ((j - last : Int) : β) := by
      have : (0 : Int) < j - last := by omega
      exact_mod_cast this
    by_cases hil : i ≤ last
    · rw [(intens_arrays_layer 1 c lm junk tr tau w last rnn i hi0 hil).2, hjpad, mul_one]
      have := hle i hi0 hil
      linarith
    · have hipad := (intens_arrays_pad 1 c lm junk tr tau w last rnn i hl (by omega)
        (by omega)).2
      rw [hipad, hjpad, mul_one, mul_one]
      have hlt : ((i - last : Int) : β) < ((j - last : Int) : β) := by
        have : i - last < j - last := by omega
        exact_mod_cast this
      linarith

/-- C14: for every `i` with `last < i < rnn` (`0 <= last`) `eclipse_intens` sets the integrand
`tauInteg[i]` to `0` and the abscissa `tauIV[i]` to `tau[last] + (i - last)`; hence, when
`tau[0..last]` is strictly increasing, the whole padded abscissa `tauIV[0..rnn-1]` is strictly
increasing and every interval length `tauIV[i+1] - tauIV[i]` is positive. -/
theorem eclipse_intens_padding (c : Consts β) (lm : Libm β) (junk : Arr β) (tr : transit β)
    (tau : Arr β) (w : β) (last rnn : Int) (hl : 0 ≤ last) :
    (∀ i : Int, last < i → i < rnn →
        (intens_arrays 1 c lm junk tr tau w last rnn).tauInteg i = 0
          ∧ (intens_arrays 1 c lm junk tr tau w last rnn).tauIV i
            = tau last + ((i - last : Int) : β))
      ∧ ((∀ i j : Int, 0 ≤ i → i < j → j ≤ last → tau i < tau j) →
          (∀ i j : Int, 0 ≤ i → i < j → j < rnn →
            (intens_arrays 1 c lm junk tr tau w last rnn).tauIV i
              < (intens_arrays 1 c lm junk tr tau w last rnn).tauIV j)
          ∧ (∀ i : Int, 0 ≤ i → i + 1 < rnn →
            0 < (intens_arrays 1 c lm junk tr tau w last rnn).tauIV (i + 1)
                - (intens_arrays 1 c lm junk tr tau w last rnn).tauIV i)) := by
  refine ⟨?_, ?_⟩
  · intro i hi hin
    have h := intens_arrays_pad 1 c lm junk tr tau w last rnn i hl hi hin
    rw [mul_one] at h
    exact h
  · intro hinc
    refine ⟨?_, ?_⟩
    · intro i j hi0 hij hj
      exact intens_arrays_tauIV_lt c lm junk tr tau w last rnn hl hinc i j hi0 hij hj
    · intro i hi0 hi
      exact sub_pos.mpr
        (intens_arrays_tauIV_lt c lm junk tr tau w last rnn hl hinc i (i + 1) hi0 (by omega) hi)

/-- The optical depths `[0, 1, 2]` increase strictly up to `last = 1`. -/
theorem tau012_increasing (i j : Int) (h0 : 0 ≤ i) (hij : i < j) (hj : j ≤ 1) :
    (ofList [0, 1, 2] : Arr ℝ) i < (ofList [0, 1, 2] : Arr ℝ) j := by
  have h : i = 0 ∧ j = 1 := by omega
  obtain ⟨hi, hj⟩ := h
  subst hi; subst hj
  simp [ofList]

/-- Witness of C14: optical depths `[0, 1, 2]` with `last = 1` on a three-layer grid; the padded
abscissa is `[0, 1, 2]`. -/
theorem eclipse_intens_padding_witness :
    (0 : Int) ≤ 1
      ∧ (∀ i j : Int, 0 ≤ i → i < j → j ≤ 1 →
          (ofList [0, 1, 2] : Arr ℝ) i < (ofList [0, 1, 2] : Arr ℝ) j)
      ∧ (∀ i : Int, 1 < i → i < 3 →
          (intens_arrays 1 (cgs Real.pi) (Libm.mk Real.exp Real.cos Real.sin)
              (fun _ => 7) (atm3 : transit ℝ) (ofList [0, 1, 2]) 1000 1 3).tauInteg i = 0
            ∧ (intens_arrays 1 (cgs Real.pi) (Libm.mk Real.exp Real.cos Real.sin)
              (fun _ => 7) (atm3 : transit ℝ) (ofList [0, 1, 2]) 1000 1 3).tauIV i
              = (ofList [0, 1, 2] : Arr ℝ) 1 + ((i - 1 : Int) : ℝ))
      ∧ (∀ i j : Int, 0 ≤ i → i < j → j < 3 →
          (intens_arrays 1 (cgs Real.pi) (Libm.mk Real.exp Real.cos Real.sin)
              (fun _ => 7) (atm3 : transit ℝ) (ofList [0, 1, 2]) 1000 1 3).tauIV i
            < (intens_arrays 1 (cgs Real.pi) (Libm.mk Real.exp Real.cos Real.sin)
              (fun _ => 7) (atm3 : transit ℝ) (ofList [0, 1, 2]) 1000 1 3).tauIV j)
      ∧ (∀ i : Int, 0 ≤ i → i + 1 < 3 →
          0 < (intens_arrays 1 (cgs Real.pi) (Libm.mk Real.exp Real.cos Real.sin)
                (fun _ => 7) (atm3 : transit ℝ) (ofList [0, 1, 2]) 1000 1 3).tauIV (i + 1)
              - (intens_arrays 1 (cgs Real.pi) (Libm.mk Real.exp Real.cos Real.sin)
                (fun _ => 7) (atm3 : transit ℝ) (ofList [0, 1, 2]) 1000 1 3).tauIV i) :=
  by
  obtain ⟨hpad, hmono⟩ :=
    eclipse_intens_padding (cgs Real.pi) (Libm.mk Real.exp Real.cos Real.sin)
      (fun _ => 7) (atm3 : transit ℝ) (ofList [0, 1, 2]) 1000 1 3 (by norm_num)
  exact ⟨by norm_num, tau012_increasing, hpad, (hmono tau012_increasing).1,
    (hmono tau012_increasing).2⟩

end TheoremsPadAbscissa

section TheoremsPointCount

variable {β : Type} [LinearOrderedField β]

/-- The Simpson Integrator of the specification reads its abscissa and integrand arrays only at
the indices `0 .. n-1`. -/
theorem integrate_spec_congr (x x' y y' : Arr β) (n : Int)
    (h : ∀ i : Int, 0 ≤ i → i < n → x' i = x i ∧ y' i = y i) :
    integrate specPU x' y' n = integrate specPU x y n := by
  have hm : spec_makeh x' (fun _ => 0) n = spec_makeh x (fun _ => 0) n := by
    funext i
    unfold spec_makeh
    by_cases hi : 0 ≤ i ∧ i < n - 1
    · rw [if_pos hi, if_pos hi, (h (i + 1) (by omega) (by omega)).1,
        (h i hi.1 (by omega)).1]
    · rw [if_neg hi, if_neg hi]
  simp only [integrate, specPU, hm, spec_simps]
  apply Finset.sum_congr rfl
  intro k hk
  have hk' : (k : Int) < (n - 1) / 2 := by
    have := Finset.mem_range.mp hk
    omega
  rw [(h (2 * (k : Int)) (by omega) (by omega)).2,
    (h (2 * (k : Int) + 1) (by omega) (by omega)).2,
    (h (2 * (k : Int) + 2) (by omega) (by omega)).2]

/-- C13: the number of points `eclipse_intens` hands to the integrator is `min(last+2, rnn)`:
for `0 <= last <= rnn-1` these are the `last+1` layers `0..last` plus one zero-valued pad point,
or no pad point when `last = rnn-1`.  The returned value is therefore fixed by the entries at
the indices `0 .. last+1`: with the Simpson Integrator of the specification, any arrays `x'`,
`y'` that agree with the abscissa and integrand there give the same value, whatever they hold
at indices greater than `last+1`. -/
theorem eclipse_intens_point_count (c : Consts β) (lm : Libm β) (junk : Arr β)
    (tr : transit β) (tau : Arr β) (w : β) (last : Int) (toomuch : β) (rad : prop_samp β)
    (x' y' : Arr β) (hl0 : 0 ≤ last) (hlr : last ≤ rad.n - 1)
    (hagree : ∀ i : Int, 0 ≤ i → i ≤ last + 1 →
      x' i = (intens_arrays 1 c lm junk tr tau w last rad.n).tauIV i
        ∧ y' i = (intens_arrays 1 c lm junk tr tau w last rad.n).tauInteg i) :
    intens_count last rad.n = min (last + 2) rad.n
      ∧ (if last = rad.n - 1 then intens_count last rad.n = last + 1
         else intens_count last rad.n = last + 2
           ∧ (intens_arrays 1 c lm junk tr tau w last rad.n).tauInteg (last + 1) = 0)
      ∧ (∀ pu : PU β, eclipse_intens pu c lm junk tr tau w last toomuch rad
          = if intens_count last rad.n < 3 then
              Except.error (Fatal.lessThan3 (intens_count last rad.n))
            else
              Except.ok
                (integrate pu (intens_arrays 1 c lm junk tr tau w last rad.n).tauIV
                    (intens_arrays 1 c lm junk tr tau w last rad.n).tauInteg
                    (intens_count last rad.n)
                  / lm.cos (tr.angles tr.angleIndex * c.DEGREES)))
      ∧ eclipse_intens specPU c lm junk tr tau w last toomuch rad
          = if intens_count last rad.n < 3 then
              Except.error (Fatal.lessThan3 (intens_count last rad.n))
            else
              Except.ok
                (integrate specPU x' y' (intens_count last rad.n)
                  / lm.cos (tr.angles tr.angleIndex * c.DEGREES)) := by
  have hcount := intens_count_eq_min last rad.n
  refine ⟨hcount, ?_, fun pu => rfl, ?_⟩
  · by_cases h : last = rad.n - 1
    · rw [if_pos h, hcount]; omega
    · rw [if_neg h]
      refine ⟨by rw [hcount]; omega, ?_⟩
      exact (intens_arrays_pad 1 c lm junk tr tau w last rad.n (last + 1) hl0 (by omega)
        (by omega)).1
  · have hc : integrate specPU x' y' (intens_count last rad.n)
        = integrate specPU (intens_arrays 1 c lm junk tr tau w last rad.n).tauIV
            (intens_arrays 1 c lm junk tr tau w last rad.n).tauInteg
            (intens_count last rad.n) := by
      apply integrate_spec_congr
      intro i hi0 hi
      exact hagree i hi0 (by rw [hcount] at hi; omega)
    rw [hc]
    rfl

/-- Witness of C13: five layers, `last = 1`: three points are handed over, and the entries at
the indices `3` and `4` may be replaced by anything. -/
theorem eclipse_intens_point_count_witness :
    (0 : Int) ≤ 1 ∧ (1 : Int) ≤ (atm5 : transit ℝ).rads.n - 1
      ∧ (∀ i : Int, 0 ≤ i → i ≤ 1 + 1 →
          (Function.update (Function.update (intens_arrays 1 (cgs Real.pi) (Libm.mk Real.exp Real.cos Real.sin) (fun _ => 7) (atm5 : transit ℝ) (ofList [0, 1, 2, 3, 4]) 1000 1 (atm5 : transit ℝ).rads.n).tauIV 3 99) 4 100) i = (intens_arrays 1 (cgs Real.pi) (Libm.mk Real.exp Real.cos Real.sin) (fun _ => 7) (atm5 : transit ℝ) (ofList [0, 1, 2, 3, 4]) 1000 1 (atm5 : transit ℝ).rads.n).tauIV i
            ∧ (Function.update (Function.update (intens_arrays 1 (cgs Real.pi) (Libm.mk Real.exp Real.cos Real.sin) (fun _ => 7) (atm5 : transit ℝ) (ofList [0, 1, 2, 3, 4]) 1000 1 (atm5 : transit ℝ).rads.n).tauInteg 3 5) 4 6) i = (intens_arrays 1 (cgs Real.pi) (Libm.mk Real.exp Real.cos Real.sin) (fun _ => 7) (atm5 : transit ℝ) (ofList [0, 1, 2, 3, 4]) 1000 1 (atm5 : transit ℝ).rads.n).tauInteg i)
      ∧ (intens_count 1 (atm5 : transit ℝ).rads.n) = min (1 + 2) (atm5 : transit ℝ).rads.n
      ∧ (if (1 : Int) = (atm5 : transit ℝ).rads.n - 1 then (intens_count 1 (atm5 : transit ℝ).rads.n) = 1 + 1
         else (intens_count 1 (atm5 : transit ℝ).rads.n) = 1 + 2 ∧ (intens_arrays 1 (cgs Real.pi) (Libm.mk Real.exp Real.cos Real.sin) (fun _ => 7) (atm5 : transit ℝ) (ofList [0, 1, 2, 3, 4]) 1000 1 (atm5 : transit ℝ).rads.n).tauInteg (1 + 1) = 0)
      ∧ (∀ pu : PU ℝ, eclipse_intens pu (cgs Real.pi) (Libm.mk Real.exp Real.cos Real.sin) (fun _ => 7) (atm5 : transit ℝ) (ofList [0, 1, 2, 3, 4]) 1000 1 2 (atm5 : transit ℝ).rads
          = if (intens_count 1 (atm5 : transit ℝ).rads.n) < 3 then Except.error (Fatal.lessThan3 (intens_count 1 (atm5 : transit ℝ).rads.n))
            else Except.ok (integrate pu (intens_arrays 1 (cgs Real.pi) (Libm.mk Real.exp Real.cos Real.sin) (fun _ => 7) (atm5 : transit ℝ) (ofList [0, 1, 2, 3, 4]) 1000 1 (atm5 : transit ℝ).rads.n).tauIV (intens_arrays 1 (cgs Real.pi) (Libm.mk Real.exp Real.cos Real.sin) (fun _ => 7) (atm5 : transit ℝ) (ofList [0, 1, 2, 3, 4]) 1000 1 (atm5 : transit ℝ).rads.n).tauInteg (intens_count 1 (atm5 : transit ℝ).rads.n) / Real.cos ((atm5 : transit ℝ).angles (atm5 : transit ℝ).angleIndex * (cgs Real.pi).DEGREES)))
      ∧ eclipse_intens specPU (cgs Real.pi) (Libm.mk Real.exp Real.cos Real.sin) (fun _ => 7) (atm5 : transit ℝ) (ofList [0, 1, 2, 3, 4]) 1000 1 2 (atm5 : transit ℝ).rads
          = if (intens_count 1 (atm5 : transit ℝ).rads.n) < 3 then Except.error (Fatal.lessThan3 (intens_count 1 (atm5 : transit ℝ).rads.n))
            else Except.ok (integrate specPU (Function.update (Function.update (intens_arrays 1 (cgs Real.pi) (Libm.mk Real.exp Real.cos Real.sin) (fun _ => 7) (atm5 : transit ℝ) (ofList [0, 1, 2, 3, 4]) 1000 1 (atm5 : transit ℝ).rads.n).tauIV 3 99) 4 100) (Function.update (Function.update (intens_arrays 1 (cgs Real.pi) (Libm.mk Real.exp Real.cos Real.sin) (fun _ => 7) (atm5 : transit ℝ) (ofList [0, 1, 2, 3, 4]) 1000 1 (atm5 : transit ℝ).rads.n).tauInteg 3 5) 4 6) (intens_count 1 (atm5 : transit ℝ).rads.n) / Real.cos ((atm5 : transit ℝ).angles (atm5 : transit ℝ).angleIndex * (cgs Real.pi).DEGREES)) := by
  have hagree : ∀ i : Int, 0 ≤ i → i ≤ 1 + 1 →
      (Function.update (Function.update (intens_arrays 1 (cgs Real.pi) (Libm.mk Real.exp Real.cos Real.sin) (fun _ => 7) (atm5 : transit ℝ) (ofList [0, 1, 2, 3, 4]) 1000 1 (atm5 : transit ℝ).rads.n).tauIV 3 99) 4 100) i = (intens_arrays 1 (cgs Real.pi) (Libm.mk Real.exp Real.cos Real.sin) (fun _ => 7) (atm5 : transit ℝ) (ofList [0, 1, 2, 3, 4]) 1000 1 (atm5 : transit ℝ).rads.n).tauIV i
        ∧ (Function.update (Function.update (intens_arrays 1 (cgs Real.pi) (Libm.mk Real.exp Real.cos Real.sin) (fun _ => 7) (atm5 : transit ℝ) (ofList [0, 1, 2, 3, 4]) 1000 1 (atm5 : transit ℝ).rads.n).tauInteg 3 5) 4 6) i = (intens_arrays 1 (cgs Real.pi) (Libm.mk Real.exp Real.cos Real.sin) (fun _ => 7) (atm5 : transit ℝ) (ofList [0, 1, 2, 3, 4]) 1000 1 (atm5 : transit ℝ).rads.n).tauInteg i := by
    intro i _ hi
    have h3 : i ≠ 3 := by omega
    have h4 : i ≠ 4 := by omega
    simp [Function.update_noteq h3, Function.update_noteq h4]
  exact ⟨by norm_num, by simp [atm5], hagree,
    eclipse_intens_point_count (cgs Real.pi) (Libm.mk Real.exp Real.cos Real.sin) (fun _ => 7)
      (atm5 : transit ℝ) (ofList [0, 1, 2, 3, 4]) 1000 1 2 (atm5 : transit ℝ).rads _ _
      (by norm_num) (by simp [atm5]) hagree⟩

end TheoremsPointCount

section TheoremsBounds

/-- Every access of the first loop is at an iteration index `j < k` or at the reversed index
`rnn-1-j`. -/
theorem mem_intens_layers_accesses (rnn : Int) (k : Nat) (a : Access)
    (ha : a ∈ intens_layers_accesses rnn k) :
    ∃ j : Nat, j < k ∧ (a.idx = (j : Int) ∨ a.idx = rnn - 1 - (j : Int)) := by
  induction k with
  | zero => simp [intens_layers_accesses] at ha
  | succ k ih =>
    simp only [intens_layers_accesses, List.mem_append, List.mem_cons, List.mem_singleton,
      List.not_mem_nil, or_false] at ha
    rcases ha with h | h | h | h | h | h | h | h
    · obtain ⟨j, hj, hidx⟩ := ih h
      exact ⟨j, by omega, hidx⟩
    all_goals
      subst h
      exact ⟨k, by omega, by simp⟩

/-- Every access of the padding loop is at an iteration index `i0 + j` with `j < k`, or, for
the load `tauIV[i-1]`, one below it. -/
theorem mem_intens_pad_accesses (i0 : Int) (k : Nat) (a : Access)
    (ha : a ∈ intens_pad_accesses i0 k) :
    ∃ j : Nat, j < k ∧ (a.idx = i0 + (j : Int) ∨ a.idx = i0 + (j : Int) - 1) := by
  induction k with
  | zero => simp [intens_pad_accesses] at ha
  | succ k ih =>
    simp only [intens_pad_accesses, List.mem_append, List.mem_cons, List.mem_singleton,
      List.not_mem_nil, or_false] at ha
    rcases ha with h | h | h | h
    · obtain ⟨j, hj, hidx⟩ := ih h
      exact ⟨j, by omega, hidx⟩
    all_goals
      subst h
      exact ⟨k, by omega, by simp⟩

/-- The log holds the three stores of every iteration of the first loop. -/
theorem layers_stores_mem (rnn : Int) (k j : Nat) (hj : j < k) :
    ({ arr := IntensArr.tauIV, idx := (j : Int), store := true } : Access)
        ∈ intens_layers_accesses rnn k
      ∧ ({ arr := IntensArr.B, idx := (j : Int), store := true } : Access)
        ∈ intens_layers_accesses rnn k
      ∧ ({ arr := IntensArr.tauInteg, idx := (j : Int), store := true } : Access)
        ∈ intens_layers_accesses rnn k := by
  induction k with
  | zero => omega
  | succ k ih =>
    simp only [intens_layers_accesses, List.mem_append, List.mem_cons, List.mem_singleton]
    by_cases hjk : j = k
    · subst hjk
      simp
    · obtain ⟨h1, h2, h3⟩ := ih (by omega)
      exact ⟨Or.inl h1, Or.inl h2, Or.inl h3⟩

/-- The log holds the two stores of every iteration of the padding loop. -/
theorem pad_stores_mem (i0 : Int) (k j : Nat) (hj : j < k) :
    ({ arr := IntensArr.tauIV, idx := i0 + (j : Int), store := true } : Access)
        ∈ intens_pad_accesses i0 k
      ∧ ({ arr := IntensArr.tauInteg, idx := i0 + (j : Int), store := true } : Access)
        ∈ intens_pad_accesses i0 k := by
  induction k with
  | zero => omega
  | succ k ih =>
    simp only [intens_pad_accesses, List.mem_append, List.mem_cons, List.mem_singleton]
    by_cases hjk : j = k
    · subst hjk
      simp
    · obtain ⟨h1, h2⟩ := ih (by omega)
      exact ⟨Or.inl h1, Or.inl h2⟩

/-- The log misses no store: a cell of `tauIV` or `tauInteg` at which the log records no store
still holds its initial contents after both loops. -/
theorem intens_arrays_untouched {α : Type} [Field α] (step : α) (c : Consts α) (lm : Libm α)
    (junk : Arr α) (tr : transit α) (tau : Arr α) (w : α) (last rnn : Int) (i : Int)
    (hIV : ({ arr := IntensArr.tauIV, idx := i, store := true } : Access)
      ∉ intens_accesses last rnn)
    (hInteg : ({ arr := IntensArr.tauInteg, idx := i, store := true } : Access)
      ∉ intens_accesses last rnn) :
    (intens_arrays step c lm junk tr tau w last rnn).tauIV i = junk i
      ∧ (intens_arrays step c lm junk tr tau w last rnn).tauInteg i = junk i := by
  simp only [intens_accesses, List.mem_append, not_or] at hIV hInteg
  unfold intens_arrays
  simp only []
  generalize (last + 1).toNat = k1 at hIV hInteg ⊢
  have hlay : ¬ (0 ≤ i ∧ i < (k1 : Int)) := by
    intro h
    have hm := (layers_stores_mem rnn k1 i.toNat (by omega)).1
    have hnn : ((i.toNat : Nat) : Int) = i := Int.toNat_of_nonneg h.1
    rw [hnn] at hm
    exact hIV.1 hm
  have hpad : ¬ ((k1 : Int) ≤ i ∧ i < (k1 : Int) + ((rnn - (k1 : Int)).toNat : Int)) := by
    intro h
    have hm := (pad_stores_mem (k1 : Int) (rnn - (k1 : Int)).toNat (i - (k1 : Int)).toNat
      (by omega)).1
    have hnn : (((i - (k1 : Int)).toNat : Nat) : Int) = i - (k1 : Int) :=
      Int.toNat_of_nonneg (by omega)
    have e : (k1 : Int) + (i - (k1 : Int)) = i := by omega
    rw [hnn, e] at hm
    exact hIV.2 hm
  constructor
  · rw [(intens_pad_apply step _ _ _ i).2.2, if_neg hpad,
      (intens_layers_apply c lm tr tau w rnn _ _ _ i).1, if_neg hlay]
  · rw [(intens_pad_apply step _ _ _ i).2.1, if_neg hpad,
      (intens_layers_apply c lm tr tau w rnn _ _ _ i).2.2, if_neg hlay]

/-- C16: under `0 <= last <= rnn-1` every array access of `eclipse_intens` (lines 188-249) is in
bounds: the loads `tau[i]`, `temp[rnn-1-i]` and the stores and loads on `B`, `tauInteg`, `tauIV`
use indices in `[0, rnn)`; the padding loop is entered with `i >= 1`, so its load `tauIV[i-1]`
is at a non-negative index; and the point count passed to the integrator is at most `rnn`. -/
theorem eclipse_intens_in_bounds (last rnn : Int) (hl0 : 0 ≤ last) (hlr : last ≤ rnn - 1) :
    (∀ a ∈ intens_accesses last rnn, 0 ≤ a.idx ∧ a.idx < rnn)
      ∧ 1 ≤ ((last + 1).toNat : Int)
      ∧ intens_count last rnn ≤ rnn := by
  have hk : ((last + 1).toNat : Int) = last + 1 := Int.toNat_of_nonneg (by omega)
  refine ⟨?_, by omega, by rw [intens_count_eq_min]; omega⟩
  intro a ha
  simp only [intens_accesses, List.mem_append] at ha
  rcases ha with h | h
  · obtain ⟨j, hj, hidx⟩ := mem_intens_layers_accesses rnn _ a h
    omega
  · obtain ⟨j, hj, hidx⟩ := mem_intens_pad_accesses _ _ a h
    omega

/-- Witness of C16: `last = 1` on a grid of `rnn = 5` layers. -/
theorem eclipse_intens_in_bounds_witness :
    (0 : Int) ≤ 1 ∧ (1 : Int) ≤ 5 - 1
      ∧ (∀ a ∈ intens_accesses 1 5, 0 ≤ a.idx ∧ a.idx < 5)
      ∧ 1 ≤ (((1 : Int) + 1).toNat : Int)
      ∧ intens_count 1 5 ≤ 5 :=
  ⟨by norm_num, by norm_num, eclipse_intens_in_bounds 1 5 (by norm_num) (by norm_num)⟩

end TheoremsBounds

section TheoremsThinLimit

/-- The Simpson Integrator of the specification as the sum of its pair contributions. -/
theorem integrate_spec_eq_sum {β : Type} [LinearOrderedField β] (x y : Arr β) (n : Int) :
    integrate specPU x y n
      = Finset.sum (Finset.range ((n - 1) / 2).toNat) fun k : Nat =>
          simpson_pair (x (2 * (k : Int))) (x (2 * (k : Int) + 1)) (x (2 * (k : Int) + 2))
            (y (2 * (k : Int))) (y (2 * (k : Int) + 1)) (y (2 * (k : Int) + 2)) := by
  simp only [integrate, specPU, spec_simps]
  apply Finset.sum_congr rfl
  intro k hk
  have hk' : (k : Int) < (n - 1) / 2 := by
    have := Finset.mem_range.mp hk
    omega
  have hp : 0 ≤ (k : Int) ∧ 2 * (k : Int) + 1 < n - 1 := by omega
  have hm0 : 0 ≤ 2 * (k : Int) ∧ 2 * (k : Int) < n - 1 := by omega
  have hm1 : 0 ≤ 2 * (k : Int) + 1 ∧ 2 * (k : Int) + 1 < n - 1 := by omega
  have e : 2 * (k : Int) + 1 + 1 = 2 * (k : Int) + 2 := by ring
  simp only [spec_geth, spec_makeh, if_pos hp, if_pos hm0, if_pos hm1, simpson_pair, e]

theorem exp_diff_bounds (μ a b : ℝ) (hμ : 0 < μ) (ha : 0 ≤ a) (hab : a < b) :
    0 ≤ Real.exp (-a / μ) - Real.exp (-b / μ)
      ∧ Real.exp (-a / μ) - Real.exp (-b / μ) ≤ (b - a) / μ := by
  have hsplit : Real.exp (-b / μ) = Real.exp (-a / μ) * Real.exp (-((b - a) / μ)) := by
    rw [← Real.exp_add]
    congr 1
    ring
  have ht : 0 ≤ (b - a) / μ := div_nonneg (by linarith) hμ.le
  have h1 : Real.exp (-((b - a) / μ)) ≤ 1 := Real.exp_le_one_iff.mpr (by linarith)
  have h2 : 1 - (b - a) / μ ≤ Real.exp (-((b - a) / μ)) := by
    have := Real.add_one_le_exp (-((b - a) / μ))
    linarith
  have ha1 : Real.exp (-a / μ) ≤ 1 := by
    apply Real.exp_le_one_iff.mpr
    have : 0 ≤ a / μ := div_nonneg ha hμ.le
    rw [neg_div]; linarith
  have hapos : 0 < Real.exp (-a / μ) := Real.exp_pos _
  rw [hsplit]
  generalize Real.exp (-a / μ) = A at ha1 hapos
  generalize Real.exp (-((b - a) / μ)) = E at h1 h2
  generalize (b - a) / μ = t at ht h2
  constructor
  · have : 0 ≤ A * (1 - E) := mul_nonneg hapos.le (by linarith)
    linarith
  · have h3 : A * (1 - E) ≤ 1 * t :=
      mul_le_mul ha1 (by linarith) (by linarith) (by norm_num)
    linarith

theorem pair_core_bound (h0 h1 a1 q0 q1 m : ℝ) (hh0 : 0 < h0) (hh1 : 0 < h1)
    (ha1pos : 0 < a1) (ha1 : a1 ≤ 1) (q0lo : 0 ≤ q0) (q0hi : q0 ≤ m) (q1lo : 0 ≤ q1)
    (q1hi : q1 ≤ m) (hm : 0 < m) :
    |(h0 + h1) * a1 + (h0 + h1) / 6 * ((2 * h0 - h1) * q0 - (2 * h1 - h0) * q1)|
      ≤ (h0 + h1) + (h0 + h1) ^ 2 * m := by
  have hHpos : 0 < h0 + h1 := by linarith
  have p00lo : 0 ≤ h0 * q0 := mul_nonneg hh0.le q0lo
  have p00hi : h0 * q0 ≤ h0 * m := mul_le_mul_of_nonneg_left q0hi hh0.le
  have p10lo : 0 ≤ h1 * q0 := mul_nonneg hh1.le q0lo
  have p10hi : h1 * q0 ≤ h1 * m := mul_le_mul_of_nonneg_left q0hi hh1.le
  have p01lo : 0 ≤ h0 * q1 := mul_nonneg hh0.le q1lo
  have p01hi : h0 * q1 ≤ h0 * m := mul_le_mul_of_nonneg_left q1hi hh0.le
  have p11lo : 0 ≤ h1 * q1 := mul_nonneg hh1.le q1lo
  have p11hi : h1 * q1 ≤ h1 * m := mul_le_mul_of_nonneg_left q1hi hh1.le
  have hm0 : 0 ≤ h0 * m := mul_nonneg hh0.le hm.le
  have hm1 : 0 ≤ h1 * m := mul_nonneg hh1.le hm.le
  have hEhi : (2 * h0 - h1) * q0 - (2 * h1 - h0) * q1 ≤ 3 * ((h0 + h1) * m) := by
    linarith
  have hElo : -(3 * ((h0 + h1) * m)) ≤ (2 * h0 - h1) * q0 - (2 * h1 - h0) * q1 := by
    linarith
  have t1hi : (h0 + h1) * a1 ≤ h0 + h1 := by
    calc (h0 + h1) * a1 ≤ (h0 + h1) * 1 := mul_le_mul_of_nonneg_left ha1 hHpos.le
      _ = h0 + h1 := mul_one _
  have t1lo : 0 ≤ (h0 + h1) * a1 := mul_nonneg hHpos.le ha1pos.le
  have h6 : 0 ≤ (h0 + h1) / 6 := by positivity
  have t2hi : (h0 + h1) / 6 * ((2 * h0 - h1) * q0 - (2 * h1 - h0) * q1)
      ≤ (h0 + h1) / 6 * (3 * ((h0 + h1) * m)) :=
    mul_le_mul_of_nonneg_left hEhi h6
  have t2lo : (h0 + h1) / 6 * (-(3 * ((h0 + h1) * m)))
      ≤ (h0 + h1) / 6 * ((2 * h0 - h1) * q0 - (2 * h1 - h0) * q1) :=
    mul_le_mul_of_nonneg_left hElo h6
  have hsq : 0 ≤ (h0 + h1) ^ 2 * m := by positivity
  have e2 : (h0 + h1) / 6 * (3 * ((h0 + h1) * m)) = (h0 + h1) ^ 2 * m / 2 := by ring
  have e3 : (h0 + h1) / 6 * (-(3 * ((h0 + h1) * m))) = -((h0 + h1) ^ 2 * m / 2) := by ring
  rw [e2] at t2hi
  rw [e3] at t2lo
  rw [abs_le]
  constructor
  · linarith
  · linarith

theorem simpson_pair_exp_bound (P μ x0 x1 x2 : ℝ) (hμ : 0 < μ) (h0 : 0 ≤ x0) (h01 : x0 < x1)
    (h12 : x1 < x2) :
    |simpson_pair x0 x1 x2 (P * Real.exp (-x0 / μ)) (P * Real.exp (-x1 / μ))
        (P * Real.exp (-x2 / μ))| ≤ |P| * ((x2 - x0) + (x2 - x0) ^ 2 * (1 / μ)) := by
  obtain ⟨d0lo, d0hi⟩ := exp_diff_bounds μ x0 x1 hμ h0 h01
  obtain ⟨d1lo, d1hi⟩ := exp_diff_bounds μ x1 x2 hμ (by linarith) h12
  have ha1 : Real.exp (-x1 / μ) ≤ 1 := by
    apply Real.exp_le_one_iff.mpr
    have : 0 ≤ x1 / μ := div_nonneg (by linarith) hμ.le
    rw [neg_div]; linarith
  have ha1pos : 0 < Real.exp (-x1 / μ) := Real.exp_pos _
  generalize Real.exp (-x0 / μ) = a0 at d0lo d0hi
  generalize Real.exp (-x1 / μ) = a1 at d0lo d0hi d1lo d1hi ha1 ha1pos
  generalize Real.exp (-x2 / μ) = a2 at d1lo d1hi
  have hh0 : 0 < x1 - x0 := by linarith
  have hh1 : 0 < x2 - x1 := by linarith
  have q0lo : 0 ≤ (a0 - a1) / (x1 - x0) := div_nonneg d0lo hh0.le
  have q0hi : (a0 - a1) / (x1 - x0) ≤ 1 / μ := by
    rw [div_le_iff₀ hh0]
    calc a0 - a1 ≤ (x1 - x0) / μ := d0hi
      _ = 1 / μ * (x1 - x0) := by ring
  have q1lo : 0 ≤ (a1 - a2) / (x2 - x1) := div_nonneg d1lo hh1.le
  have q1hi : (a1 - a2) / (x2 - x1) ≤ 1 / μ := by
    rw [div_le_iff₀ hh1]
    calc a1 - a2 ≤ (x2 - x1) / μ := d1hi
      _ = 1 / μ * (x2 - x1) := by ring
  have key : simpson_pair x0 x1 x2 (P * a0) (P * a1) (P * a2)
      = P * (((x1 - x0) + (x2 - x1)) * a1
          + ((x1 - x0) + (x2 - x1)) / 6 * ((2 * (x1 - x0) - (x2 - x1)) * ((a0 - a1) / (x1 - x0))
              - (2 * (x2 - x1) - (x1 - x0)) * ((a1 - a2) / (x2 - x1)))) := by
    unfold simpson_pair
    have n0 : x1 - x0 ≠ 0 := ne_of_gt hh0
    have n1 : x2 - x1 ≠ 0 := ne_of_gt hh1
    field_simp
    ring
  have hH : x2 - x0 = (x1 - x0) + (x2 - x1) := by ring
  rw [key, abs_mul, hH]
  exact mul_le_mul_of_nonneg_left
    (pair_core_bound _ _ _ _ _ _ hh0 hh1 ha1pos ha1 q0lo q0hi q1lo q1hi (by positivity))
    (abs_nonneg P)

/-- One pair contribution tends to `0` when its three abscissas do, for the integrand
`P * exp(-x/mu)`. -/
theorem simpson_pair_tendsto_zero {ι : Type} (l : Filter ι) (x0 x1 x2 : ι → ℝ) (P μ : ℝ)
    (hμ : 0 < μ) (hev : ∀ᶠ e in l, 0 ≤ x0 e ∧ x0 e < x1 e ∧ x1 e < x2 e)
    (h0 : Filter.Tendsto x0 l (nhds 0)) (h2 : Filter.Tendsto x2 l (nhds 0)) :
    Filter.Tendsto
      (fun e => simpson_pair (x0 e) (x1 e) (x2 e) (P * Real.exp (-x0 e / μ))
        (P * Real.exp (-x1 e / μ)) (P * Real.exp (-x2 e / μ))) l (nhds 0) := by
  have hH : Filter.Tendsto (fun e => x2 e - x0 e) l (nhds 0) := by
    simpa using h2.sub h0
  have hb : Filter.Tendsto
      (fun e => |P| * ((x2 e - x0 e) + (x2 e - x0 e) ^ 2 * (1 / μ))) l (nhds 0) := by
    have := (hH.add ((hH.pow 2).mul_const (1 / μ))).const_mul |P|
    simpa using this
  refine squeeze_zero_norm' ?_ hb
  refine hev.mono ?_
  intro e he
  rw [Real.norm_eq_abs]
  exact simpson_pair_exp_bound P μ (x0 e) (x1 e) (x2 e) hμ he.1 he.2.1 he.2.2

/-- Transparent-atmosphere limit of `eclipse_intens`: flat temperature, no pad point
(`last = rnn-1`), optical depths non-negative, strictly increasing and tending to `0` at every
layer along `l`.  The returned value tends to `0`. -/
theorem thin_limit_zero {ι : Type} (l : Filter ι) (tau : ι → Arr ℝ) (c : Consts ℝ)
    (junk : Arr ℝ) (tr : transit ℝ) (w toomuch T : ℝ) (rad : prop_samp ℝ) (hn : 3 ≤ rad.n)
    (hflat : ∀ j : Int, 0 ≤ j → j < rad.n → tr.atm_t j = T)
    (hμ : 0 < Real.cos (tr.angles tr.angleIndex * c.DEGREES))
    (hinc : ∀ᶠ e in l, ∀ i j : Int, 0 ≤ i → i < j → j < rad.n → tau e i < tau e j)
    (hpos : ∀ᶠ e in l, 0 ≤ tau e 0)
    (hlim : ∀ i : Int, 0 ≤ i → i < rad.n → Filter.Tendsto (fun e => tau e i) l (nhds 0)) :
    ∃ r : ι → ℝ,
      (∀ e, eclipse_intens specPU c (Libm.mk Real.exp Real.cos Real.sin) junk tr (tau e) w
          (rad.n - 1) toomuch rad = Except.ok (r e))
        ∧ Filter.Tendsto r l (nhds 0) := by
  have hcount : intens_count (rad.n - 1) rad.n = rad.n := by
    rw [intens_count_eq_min]; omega
  have hval : ∀ e, eclipse_intens specPU c (Libm.mk Real.exp Real.cos Real.sin) junk tr (tau e)
      w (rad.n - 1) toomuch rad
      = Except.ok
          ((Finset.sum (Finset.range ((rad.n - 1) / 2).toNat) fun k : Nat =>
              simpson_pair (tau e (2 * (k : Int))) (tau e (2 * (k : Int) + 1))
                (tau e (2 * (k : Int) + 2))
                (planck_spec c (Libm.mk Real.exp Real.cos Real.sin) tr.wns.fct w T
                  * Real.exp (-tau e (2 * (k : Int))
                      / Real.cos (tr.angles tr.angleIndex * c.DEGREES)))
                (planck_spec c (Libm.mk Real.exp Real.cos Real.sin) tr.wns.fct w T
                  * Real.exp (-tau e (2 * (k : Int) + 1)
                      / Real.cos (tr.angles tr.angleIndex * c.DEGREES)))
                (planck_spec c (Libm.mk Real.exp Real.cos Real.sin) tr.wns.fct w T
                  * Real.exp (-tau e (2 * (k : Int) + 2)
                      / Real.cos (tr.angles tr.angleIndex * c.DEGREES))))
            / Real.cos (tr.angles tr.angleIndex * c.DEGREES)) := by
    intro e
    have hc := integrate_spec_congr (tau e)
      (intens_arrays 1 c (Libm.mk Real.exp Real.cos Real.sin) junk tr (tau e) w (rad.n - 1)
        rad.n).tauIV
      (fun i => planck_spec c (Libm.mk Real.exp Real.cos Real.sin) tr.wns.fct w T
        * Real.exp (-tau e i / Real.cos (tr.angles tr.angleIndex * c.DEGREES)))
      (intens_arrays 1 c (Libm.mk Real.exp Real.cos Real.sin) junk tr (tau e) w (rad.n - 1)
        rad.n).tauInteg
      rad.n
      (by
        intro i hi0 hi
        have h := intens_arrays_layer 1 c (Libm.mk Real.exp Real.cos Real.sin) junk tr (tau e)
          w (rad.n - 1) rad.n i hi0 (by omega)
        rw [hflat (rad.n - 1 - i) (by omega) (by omega)] at h
        exact ⟨h.2, h.1⟩)
    unfold eclipse_intens eclipse_intens_with
    simp only [hcount]
    rw [if_neg (by omega), hc, integrate_spec_eq_sum]
  refine ⟨_, hval, ?_⟩
  have hsum := tendsto_finset_sum (Finset.range ((rad.n - 1) / 2).toNat)
    (f := fun (k : Nat) (e : ι) =>
      simpson_pair (tau e (2 * (k : Int))) (tau e (2 * (k : Int) + 1))
        (tau e (2 * (k : Int) + 2))
        (planck_spec c (Libm.mk Real.exp Real.cos Real.sin) tr.wns.fct w T
          * Real.exp (-tau e (2 * (k : Int))
              / Real.cos (tr.angles tr.angleIndex * c.DEGREES)))
        (planck_spec c (Libm.mk Real.exp Real.cos Real.sin) tr.wns.fct w T
          * Real.exp (-tau e (2 * (k : Int) + 1)
              / Real.cos (tr.angles tr.angleIndex * c.DEGREES)))
        (planck_spec c (Libm.mk Real.exp Real.cos Real.sin) tr.wns.fct w T
          * Real.exp (-tau e (2 * (k : Int) + 2)
              / Real.cos (tr.angles tr.angleIndex * c.DEGREES))))
    (a := fun _ => (0 : ℝ)) (x := l)
    (by
      intro k hk
      have hk' : (k : Int) < (rad.n - 1) / 2 := by
        have := Finset.mem_range.mp hk
        omega
      apply simpson_pair_tendsto_zero l _ _ _ _ _ hμ
      · refine (hinc.and hpos).mono ?_
        intro e he
        refine ⟨?_, he.1 _ _ (by omega) (by omega) (by omega),
          he.1 _ _ (by omega) (by omega) (by omega)⟩
        by_cases hk0 : k = 0
        · subst hk0; simpa using he.2
        · exact le_of_lt (lt_of_le_of_lt he.2 (he.1 0 _ (le_refl _) (by omega) (by omega)))
      · exact hlim _ (by omega) (by omega)
      · exact hlim _ (by omega) (by omega))
  have := hsum.div_const (Real.cos (tr.angles tr.angleIndex * c.DEGREES))
  simpa using this

/-- C11 (amended): given a flat temperature profile and optical depth tending to `0` at every
layer (non-negative and strictly increasing depths, `last = rnn-1` as for a transparent
atmosphere, at least three layers, `cos(theta) > 0`), the value returned by `eclipse_intens`
converges to `0`, for every viewing angle alike. -/
theorem eclipse_intens_thin_limit {ι : Type} (l : Filter ι) (tau : ι → Arr ℝ) (c : Consts ℝ)
    (junk : Arr ℝ) (tr : transit ℝ) (w toomuch T : ℝ) (rad : prop_samp ℝ) (hn : 3 ≤ rad.n)
    (hflat : ∀ j : Int, 0 ≤ j → j < rad.n → tr.atm_t j = T)
    (hμ : 0 < Real.cos (tr.angles tr.angleIndex * c.DEGREES))
    (hinc : ∀ᶠ e in l, ∀ i j : Int, 0 ≤ i → i < j → j < rad.n → tau e i < tau e j)
    (hpos : ∀ᶠ e in l, 0 ≤ tau e 0)
    (hlim : ∀ i : Int, 0 ≤ i → i < rad.n → Filter.Tendsto (fun e => tau e i) l (nhds 0)) :
    ∃ r : ι → ℝ,
      (∀ e, eclipse_intens specPU c (Libm.mk Real.exp Real.cos Real.sin) junk tr (tau e) w
          (rad.n - 1) toomuch rad = Except.ok (r e))
        ∧ Filter.Tendsto r l (nhds 0) :=
  thin_limit_zero l tau c junk tr w toomuch T rad hn hflat hμ hinc hpos hlim

/-- The isothermal three-layer atmosphere has the temperature `1000` in every layer. -/
theorem atm3_iso_flat (j : Int) (h0 : 0 ≤ j) (hj : j < (atm3_iso : transit ℝ).rads.n) :
    (atm3_iso : transit ℝ).atm_t j = 1000 := by
  have hn : (atm3_iso : transit ℝ).rads.n = 3 := rfl
  rw [hn] at hj
  have h : j = 0 ∨ j = 1 ∨ j = 2 := by omega
  rcases h with h | h | h <;> subst h <;> simp [atm3_iso, ofList]

/-- The viewing angle of the isothermal three-layer atmosphere is `0`: its cosine is
positive. -/
theorem atm3_iso_cos_pos :
    0 < Real.cos ((atm3_iso : transit ℝ).angles (atm3_iso : transit ℝ).angleIndex * (cgs Real.pi).DEGREES) := by
  have ha : (atm3_iso : transit ℝ).angles (atm3_iso : transit ℝ).angleIndex = 0 := by
    simp [atm3_iso, atm3, ofList]
  rw [ha, zero_mul, Real.cos_zero]
  norm_num

/-- The depths `[0, e, 2e]` are strictly increasing for `e > 0`. -/
theorem thin_family_increasing :
    ∀ᶠ ε in (nhdsWithin (0 : ℝ) (Set.Ioi 0)), ∀ i j : Int, 0 ≤ i → i < j → j < (atm3_iso : transit ℝ).rads.n →
      (ofList [0, ε, 2 * ε] : Arr ℝ) i < (ofList [0, ε, 2 * ε] : Arr ℝ) j := by
  have hev : ∀ᶠ ε in (nhdsWithin (0 : ℝ) (Set.Ioi 0)), ε ∈ Set.Ioi (0 : ℝ) := self_mem_nhdsWithin
  refine hev.mono ?_
  intro ε hε i j hi0 hij hj
  have hε' : 0 < ε := hε
  have hn : (atm3_iso : transit ℝ).rads.n = 3 := rfl
  rw [hn] at hj
  have h : (i = 0 ∧ j = 1) ∨ (i = 0 ∧ j = 2) ∨ (i = 1 ∧ j = 2) := by omega
  rcases h with ⟨hi, hj⟩ | ⟨hi, hj⟩ | ⟨hi, hj⟩
  · subst hi; subst hj; simp [ofList]; exact hε'
  · subst hi; subst hj; simp [ofList]; exact hε'
  · subst hi; subst hj; simp [ofList]; linarith

/-- The depths `[0, e, 2e]` tend to `0` at every layer as `e` tends to `0` from above. -/
theorem thin_family_tendsto (i : Int) (h0 : 0 ≤ i) (hi : i < (atm3_iso : transit ℝ).rads.n) :
    Filter.Tendsto (fun ε : ℝ => (ofList [0, ε, 2 * ε] : Arr ℝ) i) (nhdsWithin (0 : ℝ) (Set.Ioi 0)) (nhds 0) := by
  have hn : (atm3_iso : transit ℝ).rads.n = 3 := rfl
  rw [hn] at hi
  have h : i = 0 ∨ i = 1 ∨ i = 2 := by omega
  rcases h with h | h | h
  · subst h
    have e : (fun ε : ℝ => (ofList [0, ε, 2 * ε] : Arr ℝ) 0) = fun _ => (0 : ℝ) := by
      funext ε; simp [ofList]
    rw [e]
    exact tendsto_const_nhds
  · subst h
    have e : (fun ε : ℝ => (ofList [0, ε, 2 * ε] : Arr ℝ) 1) = fun ε => ε := by
      funext ε; simp [ofList]
    rw [e]
    exact Filter.Tendsto.mono_left (continuous_id.tendsto 0) nhdsWithin_le_nhds
  · subst h
    have e : (fun ε : ℝ => (ofList [0, ε, 2 * ε] : Arr ℝ) 2) = fun ε => 2 * ε := by
      funext ε; simp [ofList]
    rw [e]
    have hc : Filter.Tendsto (fun ε : ℝ => 2 * ε) (nhds 0) (nhds (2 * 0)) :=
      (continuous_const.mul continuous_id).tendsto 0
    rw [mul_zero] at hc
    exact Filter.Tendsto.mono_left hc nhdsWithin_le_nhds

/-- Witness of C11 (amended): the isothermal three-layer atmosphere at temperature `1000`,
viewing angle `0`, optical depths `[0, e, 2e]` with `e` tending to `0` from above and
`last = 2 = rnn-1`. -/
theorem eclipse_intens_thin_limit_witness :
    3 ≤ (atm3_iso : transit ℝ).rads.n
      ∧ (∀ j : Int, 0 ≤ j → j < (atm3_iso : transit ℝ).rads.n → (atm3_iso : transit ℝ).atm_t j = 1000)
      ∧ 0 < Real.cos ((atm3_iso : transit ℝ).angles (atm3_iso : transit ℝ).angleIndex * (cgs Real.pi).DEGREES)
      ∧ (∀ᶠ ε in (nhdsWithin (0 : ℝ) (Set.Ioi 0)), ∀ i j : Int, 0 ≤ i → i < j → j < (atm3_iso : transit ℝ).rads.n →
          (ofList [0, ε, 2 * ε] : Arr ℝ) i < (ofList [0, ε, 2 * ε] : Arr ℝ) j)
      ∧ (∀ᶠ ε in (nhdsWithin (0 : ℝ) (Set.Ioi 0)), 0 ≤ (ofList [0, ε, 2 * ε] : Arr ℝ) 0)
      ∧ (∀ i : Int, 0 ≤ i → i < (atm3_iso : transit ℝ).rads.n →
          Filter.Tendsto (fun ε : ℝ => (ofList [0, ε, 2 * ε] : Arr ℝ) i) (nhdsWithin (0 : ℝ) (Set.Ioi 0)) (nhds 0))
      ∧ ∃ r : ℝ → ℝ,
          (∀ ε, eclipse_intens specPU (cgs Real.pi) (Libm.mk Real.exp Real.cos Real.sin) (fun _ => 7) (atm3_iso : transit ℝ) (ofList [0, ε, 2 * ε] : Arr ℝ) 1000
              ((atm3_iso : transit ℝ).rads.n - 1) 10 (atm3_iso : transit ℝ).rads = Except.ok (r ε))
            ∧ Filter.Tendsto r (nhdsWithin (0 : ℝ) (Set.Ioi 0)) (nhds 0) :=
  ⟨by simp [atm3_iso, atm3], atm3_iso_flat, atm3_iso_cos_pos, thin_family_increasing,
   Filter.Eventually.of_forall (fun ε => by simp [ofList]), thin_family_tendsto,
   eclipse_intens_thin_limit (nhdsWithin (0 : ℝ) (Set.Ioi 0)) (fun ε => (ofList [0, ε, 2 * ε] : Arr ℝ)) (cgs Real.pi) (fun _ => 7) (atm3_iso : transit ℝ) 1000 10 1000
     (atm3_iso : transit ℝ).rads (by simp [atm3_iso, atm3]) atm3_iso_flat atm3_iso_cos_pos
     thin_family_increasing (Filter.Eventually.of_forall (fun ε => by simp [ofList]))
     thin_family_tendsto⟩

/-- C11 (counterexample): the isothermal three-layer atmosphere at temperature `1000`, viewing
angle `0`, optical depths `[0, e, 2e]` tending to `0` at every layer as `e` tends to `0` from
above, `last = 2`.  The value returned by `eclipse_intens` tends to `0`; it does not converge to
the Planck intensity `B(1000, 1000)`, which is positive. -/
theorem thin_atmosphere_not_planck :
    (∀ j : Int, 0 ≤ j → j < 3 → (atm3_iso : transit ℝ).atm_t j = 1000)
      ∧ (∀ i : Int, 0 ≤ i → i < 3 →
          Filter.Tendsto (fun ε : ℝ => (ofList [0, ε, 2 * ε] : Arr ℝ) i) (nhdsWithin (0 : ℝ) (Set.Ioi 0)) (nhds 0))
      ∧ 0 < planck_spec (cgs Real.pi) (Libm.mk Real.exp Real.cos Real.sin) 1 1000 1000
      ∧ ∃ r : ℝ → ℝ,
          (∀ ε, eclipse_intens specPU (cgs Real.pi) (Libm.mk Real.exp Real.cos Real.sin) (fun _ => 7) (atm3_iso : transit ℝ) (ofList [0, ε, 2 * ε] : Arr ℝ) 1000 2 10
              (atm3_iso : transit ℝ).rads = Except.ok (r ε))
            ∧ Filter.Tendsto r (nhdsWithin (0 : ℝ) (Set.Ioi 0)) (nhds 0)
            ∧ ¬ Filter.Tendsto r (nhdsWithin (0 : ℝ) (Set.Ioi 0))
                (nhds (planck_spec (cgs Real.pi) (Libm.mk Real.exp Real.cos Real.sin) 1 1000 1000)) := by
  have hH : 0 < (cgs Real.pi).H := by simp only [cgs]; norm_num
  have hLS : 0 < (cgs Real.pi).LS := by simp only [cgs]; norm_num
  have hKB : 0 < (cgs Real.pi).KB := by simp only [cgs]; norm_num
  have hP := planck_spec_pos (cgs Real.pi) 1 1000 1000 hH hLS hKB (by norm_num) (by norm_num)
    (by norm_num)
  obtain ⟨r, hr, hlim⟩ := thin_limit_zero (nhdsWithin (0 : ℝ) (Set.Ioi 0)) (fun ε => (ofList [0, ε, 2 * ε] : Arr ℝ)) (cgs Real.pi) (fun _ => 7) (atm3_iso : transit ℝ)
    1000 10 1000 (atm3_iso : transit ℝ).rads (by simp [atm3_iso, atm3]) atm3_iso_flat atm3_iso_cos_pos
    thin_family_increasing (Filter.Eventually.of_forall (fun ε => by simp [ofList]))
    thin_family_tendsto
  refine ⟨atm3_iso_flat, thin_family_tendsto, hP, r, hr, hlim, ?_⟩
  intro hB
  have := tendsto_nhds_unique hlim hB
  linarith

end TheoremsThinLimit

end Transit
